import Mathlib

/-! SUBACK codec of the MQTT message package (`message/suback.go`)

A shallow embedding of `SubAckMessage` and of its methods `AddReturnCodes`,
`SetPacketID`, `decodeMessage`, `encodeMessage` and `size`, and of the dispatch
layer (`NewMessage`, `Decode`, `Encode`) with the Ack family and DISCONNECT
variants that the tests of the package exercise, followed by the properties
established for them.

Conventions of the embedding

* a Go `[]byte` is the list of its `len` elements; every slice expression that
  the methods evaluate is bounds-checked against that length (the capacity is
  taken to be the length, which makes no difference as long as the declared
  remaining length does not exceed `len(src)`), and a failed check (a Go
  run-time panic) is the result `none`;
* the files of the package that `suback.go` calls into are not part of the
  sources at hand: the header helpers and the QoS-range test are small
  definitions marked as modelled, the Reason Code Table and the properties
  codec are the fields of the parameter `Codec`;
* a Go `int` is an `Int`; a byte is a `Fin 256`;
* a method with a pointer receiver returns the updated message next to its Go
  results; a method writing into `dst` returns the updated buffer.
-/

namespace MQTT

/-- A Go `byte`. -/
abbrev Byte := Fin 256

/-- The Go type `ReasonCode` (a `byte`). -/
abbrev ReasonCode := Byte

/-- The Go type `PacketID` (a `uint16`). -/
abbrev PacketID := Fin 65536

/-- Protocol generations the codec distinguishes. -/
inductive ProtocolVersion
  | ProtocolV311
  | ProtocolV50
  deriving DecidableEq

/-- MQTT control packet types. -/
inductive PacketType
  | RESERVED | CONNECT | CONNACK | PUBLISH | PUBACK | PUBREC | PUBREL | PUBCOMP
  | SUBSCRIBE | SUBACK | UNSUBSCRIBE | UNSUBACK | PINGREQ | PINGRESP | DISCONNECT | AUTH
  deriving DecidableEq

/-- Error values returned by the methods of `suback.go`; `other` stands for the
errors of the properties codec that `suback.go` only passes on. -/
inductive Error
  | ErrInvalidReturnCode
  | ErrPackedIDZero
  | CodeProtocolError
  | CodeRefusedServerUnavailable
  | CodeMalformedPacket
  | ErrInsufficientDataSize
  | ErrInsufficientBufferSize
  | ErrInvalidMessageType
  | other (tag : Nat)
  deriving DecidableEq

/-- The collaborators of `suback.go` that live in other files of the package:
the Reason Code Table (`ReasonCode.IsValidForType`) and the MQTT 5 properties
codec (`decodeProperties`, `encodeProperties`).  `P` is the type of a decoded
properties block.  `encodeProperties p d` returns the new contents of the
slice `d` it was handed, the count and the error; writing through a slice
cannot change its length. -/
structure Codec (P : Type) where
  IsValidForType : ReasonCode → PacketType → Bool
  decodeProperties : PacketType → List Byte → Option P × Nat × Option Error
  encodeProperties : Option P → List Byte → List Byte × Nat × Option Error
  encodeProperties_length : ∀ p d, (encodeProperties p d).1.length = d.length

/-- The struct `SubAckMessage`: the fields of the embedded `header` that the
methods use, and `returnCodes`. -/
structure SubAckMessage (P : Type) where
  packetID : List Byte
  properties : Option P
  remLen : Nat
  mType : PacketType
  version : ProtocolVersion
  returnCodes : List ReasonCode

/-- Modelled from the spec: `QosType.IsValidFull` is not among the sources; the
QoS-range rule accepts exactly 0, 1, 2 and 0x80. -/
def IsValidFull (c : Byte) : Bool :=
  c == 0 || c == 1 || c == 2 || c == 0x80

/-- The Go built-in `copy(dst, src)`: overwrites the first
`min (len dst) (len src)` elements of `dst` and returns that number. -/
def goCopy (dst src : List Byte) : List Byte × Nat :=
  (src.take (min dst.length src.length) ++ dst.drop (min dst.length src.length),
    min dst.length src.length)

/-- The Go slice expression `s[lo:hi]`; `none` is the run-time panic
"slice bounds out of range". -/
def sliceRange (s : List Byte) (lo hi : Int) : Option (List Byte) :=
  if 0 ≤ lo ∧ lo ≤ hi ∧ hi ≤ (s.length : Int) then
    some ((s.drop lo.toNat).take (hi - lo).toNat)
  else none

/-- Modelled from the spec: `header.setPacketID` is not among the sources; it
stores the 16-bit identifier in its 2-byte big-endian wire form. -/
def setPacketID (pid : List Byte) (v : PacketID) : List Byte :=
  (goCopy (if pid.length = 0 then [0, 0] else pid)
    [⟨v.val / 256, by have := v.isLt; omega⟩, ⟨v.val % 256, by omega⟩]).1

/-- Modelled from the spec: `header.decodePacketID` is not among the sources;
it copies the leading bytes of `src` into the 2-byte packet ID and returns the
number of bytes copied. -/
def decodePacketID (pid : List Byte) (src : List Byte) : List Byte × Nat :=
  goCopy (if pid.length = 0 then [0, 0] else pid) src

/-- Modelled from the spec: `header.encodePacketID` is not among the sources;
it copies the packet ID bytes into `dst` and returns the number copied. -/
def encodePacketID (pid : List Byte) (dst : List Byte) : List Byte × Nat :=
  goCopy dst pid

/-- The message `newSubAckMessage()` returns, after the factory has filled in
the header fields `version`, `mType` and `remLen`. -/
def newSubAckMessage (P : Type) (v : ProtocolVersion) (r : Nat) : SubAckMessage P :=
  { packetID := [], properties := none, remLen := r, mType := PacketType.SUBACK,
    version := v, returnCodes := [] }

/-- `SubAckMessage.ReturnCodes`. -/
def ReturnCodes {P : Type} (msg : SubAckMessage P) : List ReasonCode :=
  msg.returnCodes

/-- `SubAckMessage.AddReturnCodes`: the loop over `ret`, returning the updated
message and the Go error (`none` is `nil`). -/
def AddReturnCodes {P : Type} (cd : Codec P) (msg : SubAckMessage P) :
    List ReasonCode → SubAckMessage P × Option Error
  | [] => (msg, none)
  | c :: rest =>
    if msg.version = ProtocolVersion.ProtocolV50 ∧ cd.IsValidForType c msg.mType = false then
      (msg, some Error.ErrInvalidReturnCode)
    else if IsValidFull c = false then
      (msg, some Error.ErrInvalidReturnCode)
    else
      AddReturnCodes cd { msg with returnCodes := msg.returnCodes ++ [c] } rest

/-- `SubAckMessage.AddReturnCode`. -/
def AddReturnCode {P : Type} (cd : Codec P) (msg : SubAckMessage P) (ret : ReasonCode) :
    SubAckMessage P × Option Error :=
  AddReturnCodes cd msg [ret]

/-- `SubAckMessage.SetPacketID`. -/
def SetPacketID {P : Type} (msg : SubAckMessage P) (v : PacketID) : SubAckMessage P :=
  { msg with packetID := setPacketID msg.packetID v }

/-- The `for i, q := range src[total : total+numCodes]` loop of `decodeMessage`,
started at index `i` with the return codes `rc` collected so far: the final
return codes, and the `(count, error)` of an early return if there is one. -/
def decodeCodes {P : Type} (cd : Codec P) (v : ProtocolVersion) (t : PacketType) (total : Int) :
    Nat → List Byte → List ReasonCode → List ReasonCode × Option (Int × Error)
  | _, [], rc => (rc, none)
  | i, q :: qs, rc =>
    if v = ProtocolVersion.ProtocolV50 ∧ cd.IsValidForType q t = false then
      (rc, some (total + i, Error.CodeProtocolError))
    else if IsValidFull q = false then
      (rc, some (total + i, Error.CodeRefusedServerUnavailable))
    else
      decodeCodes cd v t total (i + 1) qs (rc ++ [q])

/-- The part of `decodeMessage` after the version branch: `numCodes`, the slice
expression, the loop and the final return. -/
def decodeTail {P : Type} (cd : Codec P) (msg : SubAckMessage P) (src : List Byte) (total : Int) :
    Option (SubAckMessage P × Int × Option Error) :=
  let numCodes : Int := (msg.remLen : Int) - total
  match sliceRange src total (total + numCodes) with
  | none => none
  | some codes =>
    match decodeCodes cd msg.version msg.mType total 0 codes msg.returnCodes with
    | (rc, some (n, e)) => some ({ msg with returnCodes := rc }, n, some e)
    | (rc, none) => some ({ msg with returnCodes := rc }, total + numCodes, none)

/-- `SubAckMessage.decodeMessage`: the updated message, the count and the error;
`none` is a run-time panic. -/
def decodeMessage {P : Type} (cd : Codec P) (msg : SubAckMessage P) (src : List Byte) :
    Option (SubAckMessage P × Int × Option Error) :=
  let r := decodePacketID msg.packetID src
  let msg1 : SubAckMessage P := { msg with packetID := r.1 }
  let total : Int := r.2
  if msg1.version = ProtocolVersion.ProtocolV50 then
    let d := cd.decodeProperties msg1.mType (src.drop r.2)
    let msg2 : SubAckMessage P := { msg1 with properties := d.1 }
    match d.2.2 with
    | some e => some (msg2, total + d.2.1, some e)
    | none => decodeTail cd msg2 src (total + d.2.1)
  else
    decodeTail cd msg1 src total

/-- The `for _, q := range msg.returnCodes` loop of `encodeMessage`; `none` is
the run-time panic "index out of range" of `dst[total] = byte(q)`. -/
def encodeCodes : List ReasonCode → List Byte → Nat → Option (List Byte × Nat)
  | [], dst, total => some (dst, total)
  | q :: qs, dst, total =>
    if total < dst.length then encodeCodes qs (dst.set total q) (total + 1) else none

/-- `SubAckMessage.encodeMessage`: the updated `dst`, the count and the error;
`none` is a run-time panic. -/
def encodeMessage {P : Type} (cd : Codec P) (msg : SubAckMessage P) (dst : List Byte) :
    Option (List Byte × Int × Option Error) :=
  if msg.packetID.length = 0 then
    some (dst, 0, some Error.ErrPackedIDZero)
  else
    let r := encodePacketID msg.packetID dst
    if msg.version = ProtocolVersion.ProtocolV50 then
      let e := cd.encodeProperties msg.properties (r.1.drop r.2)
      let dst1 := r.1.take r.2 ++ e.1
      match e.2.2 with
      | some err => some (dst1, (r.2 : Int) + e.2.1, some err)
      | none =>
        match encodeCodes msg.returnCodes dst1 (r.2 + e.2.1) with
        | none => none
        | some (dst2, total) => some (dst2, total, none)
    else
      match encodeCodes msg.returnCodes r.1 r.2 with
      | none => none
      | some (dst2, total) => some (dst2, total, none)

/-- `SubAckMessage.size`. -/
def size {P : Type} (cd : Codec P) (msg : SubAckMessage P) : Int :=
  let total : Int := 2 + msg.returnCodes.length
  if msg.version = ProtocolVersion.ProtocolV50 then
    total + (cd.encodeProperties msg.properties []).2.1
  else
    total

/-- The test the loops of `AddReturnCodes` and `decodeMessage` apply to one
code: `true` when neither branch of the `if`/`else if` returns. -/
def codeAccepted {P : Type} (cd : Codec P) (v : ProtocolVersion) (t : PacketType) (c : ReasonCode) :
    Bool :=
  !(decide (v = ProtocolVersion.ProtocolV50) && !cd.IsValidForType c t) && IsValidFull c

/-- The error `decodeMessage` returns for a code its loop rejects. -/
def rejectError {P : Type} (cd : Codec P) (v : ProtocolVersion) (t : PacketType) (c : ReasonCode) :
    Error :=
  if v = ProtocolVersion.ProtocolV50 ∧ cd.IsValidForType c t = false then Error.CodeProtocolError
  else Error.CodeRefusedServerUnavailable


/-- The number of bytes `decodeMessage` consumes before the return codes: those
copied into the packet ID and, under V50, those of the properties block. -/
def headerLen {P : Type} (cd : Codec P) (msg : SubAckMessage P) (src : List Byte) : Nat :=
  (decodePacketID msg.packetID src).2 +
    (if msg.version = ProtocolVersion.ProtocolV50 then
      (cd.decodeProperties msg.mType (src.drop (decodePacketID msg.packetID src).2)).2.1
    else 0)


/-- Modelled from the spec: the struct `AckMessage` (PUBACK, PUBREC, PUBREL,
PUBCOMP) is not among the sources; it holds the header fields and the v5
reason code. -/
structure AckMessage (P : Type) where
  packetID : List Byte
  properties : Option P
  remLen : Nat
  mType : PacketType
  version : ProtocolVersion
  reasonCode : ReasonCode

/-- Modelled from the spec: the struct `DisconnectMessage` is not among the
sources; it holds the header fields and the v5 reason code. -/
structure DisconnectMessage (P : Type) where
  properties : Option P
  remLen : Nat
  mType : PacketType
  version : ProtocolVersion
  reasonCode : ReasonCode

/-- Modelled from the spec: the closed set of message variants, of which this
development carries the three its properties are about: the Ack family,
DISCONNECT and SUBACK. -/
inductive Message (P : Type)
  | ack (m : AckMessage P)
  | disconnect (m : DisconnectMessage P)
  | subAck (m : SubAckMessage P)

/-- The result of an entry point of the dispatch layer: a value, an error, a
run-time panic, or `unmodelled` when the call reaches a variant or a protocol
version that this development does not carry. -/
inductive Outcome (α : Type)
  | ok (a : α)
  | fail (e : Error)
  | panic
  | unmodelled

/-- Sequencing of two steps, the second running on the value of the first. -/
def Outcome.bind {α β : Type} (x : Outcome α) (f : α → Outcome β) : Outcome β :=
  match x with
  | Outcome.ok a => f a
  | Outcome.fail e => Outcome.fail e
  | Outcome.panic => Outcome.panic
  | Outcome.unmodelled => Outcome.unmodelled

/-- The Go conversion `byte(n)`. -/
def toByte (n : Nat) : Byte :=
  ⟨n % 256, Nat.mod_lt n (by decide)⟩

/-- The 4-bit wire code of a packet type. -/
def PacketType.code : PacketType → Nat
  | PacketType.RESERVED => 0
  | PacketType.CONNECT => 1
  | PacketType.CONNACK => 2
  | PacketType.PUBLISH => 3
  | PacketType.PUBACK => 4
  | PacketType.PUBREC => 5
  | PacketType.PUBREL => 6
  | PacketType.PUBCOMP => 7
  | PacketType.SUBSCRIBE => 8
  | PacketType.SUBACK => 9
  | PacketType.UNSUBSCRIBE => 10
  | PacketType.UNSUBACK => 11
  | PacketType.PINGREQ => 12
  | PacketType.PINGRESP => 13
  | PacketType.DISCONNECT => 14
  | PacketType.AUTH => 15

/-- The packet type of a 4-bit wire code. -/
def PacketType.ofCode : Nat → PacketType
  | 0 => PacketType.RESERVED
  | 1 => PacketType.CONNECT
  | 2 => PacketType.CONNACK
  | 3 => PacketType.PUBLISH
  | 4 => PacketType.PUBACK
  | 5 => PacketType.PUBREC
  | 6 => PacketType.PUBREL
  | 7 => PacketType.PUBCOMP
  | 8 => PacketType.SUBSCRIBE
  | 9 => PacketType.SUBACK
  | 10 => PacketType.UNSUBSCRIBE
  | 11 => PacketType.UNSUBACK
  | 12 => PacketType.PINGREQ
  | 13 => PacketType.PINGRESP
  | 14 => PacketType.DISCONNECT
  | _ => PacketType.AUTH

/-- Modelled from the spec: the fixed flag pattern of a packet type whose
flags carry no meaning is not among the sources; it is 2 for PUBREL, SUBSCRIBE
and UNSUBSCRIBE and 0 otherwise, as the MQTT wire format has it. -/
def DefaultFlags : PacketType → Nat
  | PacketType.PUBREL => 2
  | PacketType.SUBSCRIBE => 2
  | PacketType.UNSUBSCRIBE => 2
  | _ => 0

/-- The loop of `decodeVarInt`: at most `fuel` more bytes are read, `mult` is
the weight of the next 7-bit group, `acc` the value so far and `cnt` the
number of bytes read. -/
def decodeVarIntAux : Nat → Nat → Nat → Nat → List Byte → Outcome (Nat × Nat)
  | 0, _, _, _, _ => Outcome.fail Error.CodeMalformedPacket
  | _ + 1, _, _, _, [] => Outcome.fail Error.ErrInsufficientDataSize
  | fuel + 1, mult, acc, cnt, b :: rest =>
    if b.val < 128 then Outcome.ok (acc + b.val * mult, cnt + 1)
    else decodeVarIntAux fuel (mult * 128) (acc + (b.val - 128) * mult) (cnt + 1) rest

/-- Modelled from the spec: `DecodeVarInt` of the VarInt Engine is not among
the sources.  It reads up to 4 bytes, 7 bits of payload per byte, and returns
the value with the number of bytes consumed; it fails as malformed when the
continuation bit is still set after 4 bytes and as insufficient data when the
buffer ends before a terminating byte. -/
def decodeVarInt (buf : List Byte) : Outcome (Nat × Nat) :=
  decodeVarIntAux 4 1 0 0 buf

/-- The loop of `encodeVarInt`: 7 bits per byte, low group first, the
continuation bit set on all but the last byte. -/
def encodeVarIntAux : Nat → Nat → List Byte
  | 0, _ => []
  | fuel + 1, v =>
    if v < 128 then [toByte v] else toByte (v % 128 + 128) :: encodeVarIntAux fuel (v / 128)

/-- Modelled from the spec: `EncodeVarInt` of the VarInt Engine is not among
the sources.  It writes 1 to 4 bytes and fails (`none`) when the value exceeds
268,435,455. -/
def encodeVarInt (v : Nat) : Option (List Byte) :=
  if 268435455 < v then none else some (encodeVarIntAux 4 v)

/-- Modelled from the spec: the Fixed Header Parser is not among the sources.
Byte 0 holds the packet type in its high nibble and the flags in its low
nibble, which must match the fixed pattern of the type unless the type is
PUBLISH (malformed packet otherwise); the remaining-length varint follows; the
parse fails as insufficient data when fewer bytes follow the fixed header
than the remaining length promises.  The result is the packet type, the
flags, the remaining length and the number of header bytes. -/
def DecodeFixedHeader (buf : List Byte) : Outcome (PacketType × Nat × Nat × Nat) :=
  match buf with
  | [] => Outcome.fail Error.ErrInsufficientDataSize
  | b :: rest =>
    if PacketType.ofCode (b.val / 16) ≠ PacketType.PUBLISH ∧
        b.val % 16 ≠ DefaultFlags (PacketType.ofCode (b.val / 16)) then
      Outcome.fail Error.CodeMalformedPacket
    else
      (decodeVarInt rest).bind fun r =>
        if rest.length - r.2 < r.1 then Outcome.fail Error.ErrInsufficientDataSize
        else Outcome.ok (PacketType.ofCode (b.val / 16), b.val % 16, r.1, 1 + r.2)

/-- Modelled from the spec: `NewMessage` of the dispatch layer is not among the
sources.  It builds the zero-valued message of a packet type and fails when
the type is not recognised or not allowed for the version (AUTH is v5.0
only); the variants outside this development are `unmodelled`. -/
def NewMessage (P : Type) (v : ProtocolVersion) (t : PacketType) : Outcome (Message P) :=
  match t with
  | PacketType.PUBACK | PacketType.PUBREC | PacketType.PUBREL | PacketType.PUBCOMP =>
    Outcome.ok (Message.ack
      { packetID := [], properties := none, remLen := 0, mType := t, version := v,
        reasonCode := 0 })
  | PacketType.DISCONNECT =>
    Outcome.ok (Message.disconnect
      { properties := none, remLen := 0, mType := t, version := v, reasonCode := 0 })
  | PacketType.SUBACK => Outcome.ok (Message.subAck (newSubAckMessage P v 0))
  | PacketType.RESERVED => Outcome.fail Error.ErrInvalidMessageType
  | PacketType.AUTH =>
    if v = ProtocolVersion.ProtocolV50 then Outcome.unmodelled
    else Outcome.fail Error.ErrInvalidMessageType
  | _ => Outcome.unmodelled

/-- The packet type of a message (the Go method `Type()`). -/
def Message.TypeOf {P : Type} : Message P → PacketType
  | Message.ack m => m.mType
  | Message.disconnect m => m.mType
  | Message.subAck m => m.mType

/-- The header write that `Decode` performs before the variant runs: the
parsed remaining length is stored in the message. -/
def Message.setRemLen {P : Type} (r : Nat) : Message P → Message P
  | Message.ack m => Message.ack { m with remLen := r }
  | Message.disconnect m => Message.disconnect { m with remLen := r }
  | Message.subAck m => Message.subAck { m with remLen := r }

/-- Modelled from the spec: `AckMessage.SetPacketID` is not among the sources;
it stores the identifier as `SubAckMessage.SetPacketID` does. -/
def AckMessage.SetPacketID {P : Type} (msg : AckMessage P) (v : PacketID) : AckMessage P :=
  { msg with packetID := setPacketID msg.packetID v }

/-- Modelled from the spec: the accessor `PacketID()` of the header is not
among the sources; it returns the 16-bit identifier held in the two packet ID
bytes, and nothing when the packet ID is not set. -/
def AckMessage.PacketID {P : Type} (msg : AckMessage P) : Option PacketID :=
  match msg.packetID with
  | [hi, lo] => some ⟨hi.val * 256 + lo.val, by have := hi.isLt; have := lo.isLt; omega⟩
  | _ => none

/-- Modelled from the spec: `AckMessage.decodeMessage` is not among the
sources.  The variable header is a mandatory 2-byte packet ID; with fewer
than 2 bytes after the fixed header the decode fails as insufficient data.
The v5.0 reason code and properties are outside this development. -/
def AckMessage.decodeMessage {P : Type} (msg : AckMessage P) (src : List Byte) :
    Outcome (AckMessage P × Nat) :=
  if msg.version = ProtocolVersion.ProtocolV50 then Outcome.unmodelled
  else if src.length < 2 then Outcome.fail Error.ErrInsufficientDataSize
  else
    Outcome.ok ({ msg with packetID := (decodePacketID msg.packetID src).1 },
      (decodePacketID msg.packetID src).2)

/-- Modelled from the spec: `AckMessage.encodeMessage` is not among the
sources.  Encoding with the packet ID unset or zero fails with
`ErrPackedIDZero`; otherwise the 2 packet ID bytes are written.  The v5.0
form is outside this development. -/
def AckMessage.encodeMessage {P : Type} (msg : AckMessage P) (dst : List Byte) :
    Outcome (List Byte × Nat) :=
  if msg.version = ProtocolVersion.ProtocolV50 then Outcome.unmodelled
  else if msg.packetID.length = 0 ∨ msg.packetID = [0, 0] then
    Outcome.fail Error.ErrPackedIDZero
  else Outcome.ok (encodePacketID msg.packetID dst)

/-- Modelled from the spec: `DisconnectMessage.decodeMessage` is not among the
sources.  Under v3.1.1 there is no variable header: a non-zero remaining
length is rejected with `CodeRefusedServerUnavailable`.  Under v5.0 a
remaining length of 0 is the complete packet, and a trailing byte decodes
successfully as the appended reason code; what the remaining length declares
beyond the reason code is the properties block, read by the properties codec.
The result holds the number of bytes consumed, which `Decode` reconciles with
the remaining length. -/
def DisconnectMessage.decodeMessage {P : Type} (cd : Codec P) (msg : DisconnectMessage P)
    (src : List Byte) : Outcome (DisconnectMessage P × Nat) :=
  if msg.version = ProtocolVersion.ProtocolV50 then
    if msg.remLen = 0 then Outcome.ok (msg, 0)
    else
      match src with
      | [] => Outcome.fail Error.ErrInsufficientDataSize
      | c :: rest =>
        if msg.remLen < 2 then Outcome.ok ({ msg with reasonCode := c }, 1)
        else
          match (cd.decodeProperties msg.mType rest).2.2 with
          | some e => Outcome.fail e
          | none =>
            Outcome.ok
              ({ msg with
                  reasonCode := c, properties := (cd.decodeProperties msg.mType rest).1 },
                1 + (cd.decodeProperties msg.mType rest).2.1)
  else if 0 < msg.remLen then Outcome.fail Error.CodeRefusedServerUnavailable
  else Outcome.ok (msg, 0)

/-- Modelled from the spec: `DisconnectMessage.encodeMessage` is not among the
sources.  Under v3.1.1 nothing follows the fixed header; the v5.0 form is
outside this development. -/
def DisconnectMessage.encodeMessage {P : Type} (msg : DisconnectMessage P) (dst : List Byte) :
    Outcome (List Byte × Nat) :=
  if msg.version = ProtocolVersion.ProtocolV50 then Outcome.unmodelled
  else Outcome.ok (dst, 0)

/-- The variant call `decodeMessage` of the dispatch layer; for SUBACK it is
the method of `suback.go`. -/
def Message.decodeMessage {P : Type} (cd : Codec P) (msg : Message P) (src : List Byte) :
    Outcome (Message P × Nat) :=
  match msg with
  | Message.ack m => (AckMessage.decodeMessage m src).bind fun r =>
      Outcome.ok (Message.ack r.1, r.2)
  | Message.disconnect m => (DisconnectMessage.decodeMessage cd m src).bind fun r =>
      Outcome.ok (Message.disconnect r.1, r.2)
  | Message.subAck m =>
    match MQTT.decodeMessage cd m src with
    | none => Outcome.panic
    | some (_, _, some e) => Outcome.fail e
    | some (m1, n, none) => Outcome.ok (Message.subAck m1, n.toNat)

/-- The variant call `encodeMessage` of the dispatch layer. -/
def Message.encodeMessage {P : Type} (cd : Codec P) (msg : Message P) (dst : List Byte) :
    Outcome (List Byte × Nat) :=
  match msg with
  | Message.ack m => AckMessage.encodeMessage m dst
  | Message.disconnect m => DisconnectMessage.encodeMessage m dst
  | Message.subAck m =>
    match MQTT.encodeMessage cd m dst with
    | none => Outcome.panic
    | some (_, _, some e) => Outcome.fail e
    | some (d, n, none) => Outcome.ok (d, n.toNat)

/-- The variant call `size` of the dispatch layer: 2 for the v3.1.1 Ack
family, 0 for the v3.1.1 DISCONNECT, and `SubAckMessage.size` for SUBACK. -/
def Message.size {P : Type} (cd : Codec P) : Message P → Outcome Nat
  | Message.ack m =>
    if m.version = ProtocolVersion.ProtocolV50 then Outcome.unmodelled else Outcome.ok 2
  | Message.disconnect m =>
    if m.version = ProtocolVersion.ProtocolV50 then Outcome.unmodelled else Outcome.ok 0
  | Message.subAck m => Outcome.ok (MQTT.size cd m).toNat

/-- Modelled from the spec: `Decode` of the dispatch layer is not among the
sources.  It runs the Fixed Header Parser, builds the variant with
`NewMessage`, calls its `decodeMessage` on the bytes after the fixed header,
and reconciles the bytes the variant consumed with the remaining length: a
mismatch is a malformed packet.  The count is that of the fixed header plus
the variable header and payload. -/
def Decode {P : Type} (cd : Codec P) (v : ProtocolVersion) (buf : List Byte) :
    Outcome (Message P × Nat) :=
  (DecodeFixedHeader buf).bind fun h =>
    (NewMessage P v h.1).bind fun msg =>
      ((msg.setRemLen h.2.2.1).decodeMessage cd (buf.drop h.2.2.2)).bind fun r =>
        if r.2 = h.2.2.1 then Outcome.ok (r.1, h.2.2.2 + r.2)
        else Outcome.fail Error.CodeMalformedPacket

/-- Modelled from the spec: `Encode` of the dispatch layer is not among the
sources.  It computes `size()`, fails when `dst` cannot hold the fixed header
and `size()` bytes, writes the type and flags byte and the varint remaining
length, then calls `encodeMessage` on the rest of `dst`.  The spec names no
error for a size beyond the varint range; it is `Error.other 0` here. -/
def Encode {P : Type} (cd : Codec P) (msg : Message P) (dst : List Byte) :
    Outcome (List Byte × Nat) :=
  (msg.size cd).bind fun sz =>
    match encodeVarInt sz with
    | none => Outcome.fail (Error.other 0)
    | some lenBytes =>
      if dst.length < 1 + lenBytes.length + sz then
        Outcome.fail Error.ErrInsufficientBufferSize
      else
        (msg.encodeMessage cd (dst.drop (1 + lenBytes.length))).bind fun r =>
          Outcome.ok
            (toByte (msg.TypeOf.code * 16 + DefaultFlags msg.TypeOf) :: lenBytes ++ r.1,
              1 + lenBytes.length + r.2)

/-- The remaining length in the fixed header of `buf` is written in the fewest
bytes: encoding the decoded value gives back the length bytes of `buf`. -/
def lengthIsMinimal (buf : List Byte) : Bool :=
  match decodeVarInt (buf.drop 1) with
  | Outcome.ok r => decide (encodeVarInt r.1 = some ((buf.drop 1).take r.2))
  | _ => false

/-- Modelled from the spec: the Reason Code Table and the properties codec are
not among the sources.  This instance is used to evaluate the methods on
concrete inputs: its table holds the MQTT 5 SUBACK reason codes and the
DISCONNECT reason code 0x00 (normal disconnection), and its properties codec handles the empty properties block, the single length byte
0x00. -/
def sampleCodec : Codec Unit where
  IsValidForType := fun c t =>
    (decide (t = PacketType.SUBACK) &&
      decide (c ∈ ([0x00, 0x01, 0x02, 0x80, 0x83, 0x87, 0x8F, 0x91, 0x97, 0x9E, 0xA1, 0xA2] :
        List Byte))) ||
      (decide (t = PacketType.DISCONNECT) && decide (c = 0))
  decodeProperties := fun _ src =>
    match src with
    | [] => (none, 0, some (Error.other 0))
    | b :: _ => if b = 0 then (none, 1, none) else (none, 1, some (Error.other 1))
  encodeProperties := fun _ d =>
    match d with
    | [] => ([], 0, some (Error.other 2))
    | _ :: rest => (0 :: rest, 1, none)
  encodeProperties_length := by
    intro p d
    cases d <;> simp

/-! ## Lemmas on the loops and the slice expressions -/

theorem IsValidFull_iff (c : Byte) :
    IsValidFull c = true ↔ c = 0 ∨ c = 1 ∨ c = 2 ∨ c = 0x80 := by
  simp [IsValidFull]
  tauto

theorem codeAccepted_V311 {P : Type} (cd : Codec P) (t : PacketType) (c : ReasonCode) :
    codeAccepted cd ProtocolVersion.ProtocolV311 t c = IsValidFull c := by
  simp [codeAccepted]

theorem decodeCodes_all {P : Type} (cd : Codec P) (v : ProtocolVersion) (t : PacketType)
    (total : Int) (codes : List Byte) :
    ∀ (i : Nat) (rc : List ReasonCode), (∀ q ∈ codes, codeAccepted cd v t q = true) →
      decodeCodes cd v t total i codes rc = (rc ++ codes, none) := by
  induction codes with
  | nil => intro i rc _; simp [decodeCodes]
  | cons q qs ih =>
    intro i rc h
    have hq := h q (List.mem_cons_self q qs)
    have hqs : ∀ x ∈ qs, codeAccepted cd v t x = true :=
      fun x hx => h x (List.mem_cons_of_mem q hx)
    simp only [codeAccepted, Bool.and_eq_true, Bool.not_eq_true', Bool.and_eq_false_imp,
      decide_eq_true_eq, Bool.not_eq_false'] at hq
    rw [decodeCodes]
    have h1 : ¬ (v = ProtocolVersion.ProtocolV50 ∧ cd.IsValidForType q t = false) := by
      rintro ⟨hv, ht⟩
      have := hq.1 hv
      simp [ht] at this
    have h2 : ¬ (IsValidFull q = false) := by simp [hq.2]
    rw [if_neg h1, if_neg h2, ih (i + 1) (rc ++ [q]) hqs]
    simp

theorem decodeCodes_first_rejected {P : Type} (cd : Codec P) (v : ProtocolVersion) (t : PacketType)
    (total : Int) (pre : List Byte) (q : Byte) (post : List Byte) :
    ∀ (i : Nat) (rc : List ReasonCode), (∀ x ∈ pre, codeAccepted cd v t x = true) →
      codeAccepted cd v t q = false →
      decodeCodes cd v t total i (pre ++ q :: post) rc =
        (rc ++ pre, some (total + ((i + pre.length : Nat) : Int), rejectError cd v t q)) := by
  induction pre with
  | nil =>
    intro i rc _ hq
    simp only [List.nil_append, List.append_nil, List.length_nil, Nat.add_zero]
    rw [decodeCodes]
    by_cases h1 : v = ProtocolVersion.ProtocolV50 ∧ cd.IsValidForType q t = false
    · simp [h1, rejectError]
    · have h2 : IsValidFull q = false := by
        simp only [codeAccepted, Bool.and_eq_false_imp, Bool.not_eq_true', Bool.and_eq_false_imp,
          decide_eq_true_eq, Bool.not_eq_false'] at hq
        apply hq
        intro hv
        by_contra hc
        exact h1 ⟨hv, by simpa using hc⟩
      rw [if_neg h1, if_pos h2]
      simp [rejectError, h1]
  | cons p ps ih =>
    intro i rc h hq
    have hp := h p (List.mem_cons_self p ps)
    have hps : ∀ x ∈ ps, codeAccepted cd v t x = true :=
      fun x hx => h x (List.mem_cons_of_mem p hx)
    simp only [codeAccepted, Bool.and_eq_true, Bool.not_eq_true', Bool.and_eq_false_imp,
      decide_eq_true_eq, Bool.not_eq_false'] at hp
    have h1 : ¬ (v = ProtocolVersion.ProtocolV50 ∧ cd.IsValidForType p t = false) := by
      rintro ⟨hv, ht⟩
      have := hp.1 hv
      simp [ht] at this
    have h2 : ¬ (IsValidFull p = false) := by simp [hp.2]
    rw [List.cons_append, decodeCodes, if_neg h1, if_neg h2, ih (i + 1) (rc ++ [p]) hps hq]
    simp only [List.append_assoc, List.singleton_append, List.length_cons, Prod.mk.injEq,
      Option.some.injEq, and_true, true_and]
    omega

theorem exists_first_rejected {P : Type} (cd : Codec P) (v : ProtocolVersion) (t : PacketType) :
    ∀ codes : List Byte, ¬ (∀ q ∈ codes, codeAccepted cd v t q = true) →
      ∃ pre q post, codes = pre ++ q :: post ∧ (∀ x ∈ pre, codeAccepted cd v t x = true) ∧
        codeAccepted cd v t q = false := by
  intro codes
  induction codes with
  | nil => intro h; exact absurd (by simp) h
  | cons c cs ih =>
    intro h
    by_cases hc : codeAccepted cd v t c = true
    · have hcs : ¬ (∀ q ∈ cs, codeAccepted cd v t q = true) := by
        intro hall
        apply h
        intro q hq
        rcases List.mem_cons.mp hq with rfl | hq
        · exact hc
        · exact hall q hq
      obtain ⟨pre, q, post, heq, hpre, hq⟩ := ih hcs
      refine ⟨c :: pre, q, post, by simp [heq], ?_, hq⟩
      intro x hx
      rcases List.mem_cons.mp hx with rfl | hx
      · exact hc
      · exact hpre x hx
    · exact ⟨[], c, cs, rfl, by simp, by simpa using hc⟩

theorem decodeCodes_none_iff {P : Type} (cd : Codec P) (v : ProtocolVersion) (t : PacketType)
    (total : Int) (codes : List Byte) (i : Nat) (rc : List ReasonCode) :
    (decodeCodes cd v t total i codes rc).2 = none ↔ ∀ q ∈ codes, codeAccepted cd v t q = true := by
  constructor
  · intro h
    by_contra hall
    obtain ⟨pre, q, post, heq, hpre, hq⟩ := exists_first_rejected cd v t codes hall
    rw [heq, decodeCodes_first_rejected cd v t total pre q post i rc hpre hq] at h
    simp at h
  · intro h
    rw [decodeCodes_all cd v t total codes i rc h]

theorem sliceRange_eq (s : List Byte) (lo hi : Nat) (h1 : lo ≤ hi) (h2 : hi ≤ s.length) :
    sliceRange s lo hi = some ((s.drop lo).take (hi - lo)) := by
  unfold sliceRange
  have hc : (0 : Int) ≤ (lo : Int) ∧ (lo : Int) ≤ (hi : Int) ∧ (hi : Int) ≤ (s.length : Int) := by
    omega
  rw [if_pos hc]
  have e1 : ((lo : Int)).toNat = lo := by simp
  have e2 : ((hi : Int) - (lo : Int)).toNat = hi - lo := by omega
  rw [e1, e2]

theorem sliceRange_panic (s : List Byte) (lo hi : Int) (h : hi < lo ∨ (s.length : Int) < hi) :
    sliceRange s lo hi = none := by
  unfold sliceRange
  rw [if_neg]
  omega

theorem decodeTail_eq {P : Type} (cd : Codec P) (msg : SubAckMessage P) (src : List Byte) (k : Nat)
    (hk : k ≤ msg.remLen) (hr : msg.remLen ≤ src.length) :
    decodeTail cd msg src k =
      match decodeCodes cd msg.version msg.mType k 0 ((src.drop k).take (msg.remLen - k))
          msg.returnCodes with
      | (rc, some (n, e)) => some ({ msg with returnCodes := rc }, n, some e)
      | (rc, none) => some ({ msg with returnCodes := rc }, (msg.remLen : Int), none) := by
  unfold decodeTail
  have e : (k : Int) + ((msg.remLen : Int) - (k : Int)) = (msg.remLen : Int) := by omega
  simp only [e]
  rw [sliceRange_eq src k msg.remLen hk hr]

theorem decodeTail_panic {P : Type} (cd : Codec P) (msg : SubAckMessage P) (src : List Byte)
    (k : Nat) (h : msg.remLen < k ∨ src.length < msg.remLen) :
    decodeTail cd msg src k = none := by
  unfold decodeTail
  have e : (k : Int) + ((msg.remLen : Int) - (k : Int)) = (msg.remLen : Int) := by omega
  simp only [e]
  rw [sliceRange_panic src k msg.remLen (by omega)]

theorem decodePacketID_two (pid src : List Byte) (hp : pid.length = 0 ∨ pid.length = 2)
    (hs : 2 ≤ src.length) : decodePacketID pid src = (src.take 2, 2) := by
  unfold decodePacketID goCopy
  rcases hp with hp | hp
  · simp [hp, hs]
  · have hne : ¬ pid.length = 0 := by omega
    simp [hne, hp, hs]

theorem decodeMessage_V311 {P : Type} (cd : Codec P) (msg : SubAckMessage P) (src : List Byte)
    (hv : msg.version = ProtocolVersion.ProtocolV311)
    (hp : msg.packetID.length = 0 ∨ msg.packetID.length = 2) (hs : 2 ≤ src.length) :
    decodeMessage cd msg src =
      decodeTail cd { msg with packetID := src.take 2 } src ((2 : Nat) : Int) := by
  unfold decodeMessage
  simp [decodePacketID_two msg.packetID src hp hs, hv]

theorem decodeTail_rejects {P : Type} (cd : Codec P) (msg : SubAckMessage P) (src : List Byte)
    (k i : Nat) (c : Byte) (hi : k + i < msg.remLen) (hr : msg.remLen ≤ src.length)
    (hfirst : ∀ j, j < i → ∀ x, src[k + j]? = some x →
      codeAccepted cd msg.version msg.mType x = true)
    (hc : src[k + i]? = some c) (hbad : codeAccepted cd msg.version msg.mType c = false) :
    decodeTail cd msg src k =
      some ({ msg with returnCodes := msg.returnCodes ++ (src.drop k).take i },
        (k : Int) + (i : Int), some (rejectError cd msg.version msg.mType c)) := by
  rw [decodeTail_eq cd msg src k (by omega) hr]
  have hlen : i < ((src.drop k).take (msg.remLen - k)).length := by
    simp only [List.length_take, List.length_drop]
    omega
  have hsplit : (src.drop k).take (msg.remLen - k) =
      (src.drop k).take i ++ c :: ((src.drop k).take (msg.remLen - k)).drop (i + 1) := by
    conv_lhs => rw [← List.take_append_drop i ((src.drop k).take (msg.remLen - k))]
    rw [List.drop_eq_getElem_cons hlen, List.take_take]
    have hmin : min i (msg.remLen - k) = i := by omega
    rw [hmin]
    congr 2
    have : ((src.drop k).take (msg.remLen - k))[i]? = some c := by
      rw [List.getElem?_take_of_lt (by omega), List.getElem?_drop]
      exact hc
    rw [List.getElem?_eq_getElem hlen] at this
    exact Option.some.inj this
  have hpre : ∀ x ∈ (src.drop k).take i, codeAccepted cd msg.version msg.mType x = true := by
    intro x hx
    obtain ⟨j, hj, hjx⟩ := List.getElem_of_mem hx
    have hj' : j < i := by
      simp only [List.length_take, List.length_drop] at hj
      omega
    apply hfirst j hj' x
    have : ((src.drop k).take i)[j]? = some x := by
      rw [List.getElem?_eq_getElem hj, hjx]
    rw [List.getElem?_take_of_lt hj', List.getElem?_drop] at this
    exact this
  rw [hsplit, decodeCodes_first_rejected cd _ _ _ _ c _ 0 msg.returnCodes hpre hbad]
  have hl : ((src.drop k).take i).length = i := by
    simp only [List.length_take, List.length_drop]
    omega
  simp only [hl, Nat.zero_add]

theorem encodeCodes_append (qs : List ReasonCode) :
    ∀ (pre mid post : List Byte), mid.length = qs.length →
      encodeCodes qs (pre ++ mid ++ post) pre.length =
        some (pre ++ qs ++ post, pre.length + qs.length) := by
  induction qs with
  | nil =>
    intro pre mid post h
    have : mid = [] := List.length_eq_zero.mp h
    simp [encodeCodes, this]
  | cons q qs ih =>
    intro pre mid post h
    cases mid with
    | nil => simp at h
    | cons x mid =>
      have hlt : pre.length < (pre ++ x :: mid ++ post).length := by simp
      have hset : (pre ++ x :: mid ++ post).set pre.length q = (pre ++ [q]) ++ mid ++ post := by
        rw [List.append_assoc, List.set_append_right _ _ (Nat.le_refl _)]
        simp
      rw [encodeCodes, if_pos hlt, hset]
      have := ih (pre ++ [q]) mid post (by simpa using h)
      simp only [List.length_append, List.length_singleton] at this
      rw [this]
      simp only [List.append_assoc, List.singleton_append, List.length_cons, Option.some.injEq,
        Prod.mk.injEq, true_and]
      omega

theorem encodeCodes_ok (qs : List ReasonCode) (dst : List Byte) (total : Nat)
    (h : total + qs.length ≤ dst.length) :
    encodeCodes qs dst total =
      some (dst.take total ++ qs ++ dst.drop (total + qs.length), total + qs.length) := by
  have hsplit : dst = dst.take total ++ (dst.drop total).take qs.length ++
      dst.drop (total + qs.length) := by
    rw [List.append_assoc, ← List.drop_drop, List.take_append_drop, List.take_append_drop]
  have hl : (dst.take total).length = total := by
    simp only [List.length_take]; omega
  have := encodeCodes_append qs (dst.take total) ((dst.drop total).take qs.length)
    (dst.drop (total + qs.length)) (by simp only [List.length_take, List.length_drop]; omega)
  rw [← hsplit, hl] at this
  exact this

theorem encodeCodes_panic (qs : List ReasonCode) :
    ∀ (dst : List Byte) (total : Nat), 0 < qs.length → dst.length < total + qs.length →
      encodeCodes qs dst total = none := by
  induction qs with
  | nil => intro dst total h; simp at h
  | cons q qs ih =>
    intro dst total _ h
    rw [encodeCodes]
    by_cases hlt : total < dst.length
    · rw [if_pos hlt]
      have hlen : (dst.set total q).length = dst.length := List.length_set _ _ _
      apply ih
      · simp only [List.length_cons] at h; omega
      · simp only [List.length_cons] at h; omega
    · rw [if_neg hlt]

theorem encodeMessage_V311 {P : Type} (cd : Codec P) (msg : SubAckMessage P) (dst : List Byte)
    (hv : msg.version = ProtocolVersion.ProtocolV311) (hp : msg.packetID.length = 2)
    (hd : 2 + msg.returnCodes.length ≤ dst.length) :
    encodeMessage cd msg dst =
      some (msg.packetID ++ msg.returnCodes ++ dst.drop (2 + msg.returnCodes.length),
        ((2 + msg.returnCodes.length : Nat) : Int), none) := by
  unfold encodeMessage encodePacketID goCopy
  have hne : ¬ msg.packetID.length = 0 := by omega
  have hmin : min dst.length msg.packetID.length = 2 := by omega
  simp only [hne, if_false, hv, reduceCtorEq, hmin]
  have htake : msg.packetID.take 2 = msg.packetID := by
    rw [← hp]; exact List.take_length _
  rw [htake, encodeCodes_ok _ _ 2 (by simp only [List.length_append, List.length_drop]; omega)]
  simp only [Option.some.injEq, Prod.mk.injEq, and_true]
  have h1 : (msg.packetID ++ dst.drop 2).take 2 = msg.packetID := by
    rw [List.take_append_of_le_length (by omega), htake]
  have h2 : (msg.packetID ++ dst.drop 2).drop (2 + msg.returnCodes.length) =
      dst.drop (2 + msg.returnCodes.length) := by
    rw [List.drop_append_eq_append_drop]
    have : msg.packetID.drop (2 + msg.returnCodes.length) = [] :=
      List.drop_eq_nil_of_le (by omega)
    rw [this, hp, List.nil_append, List.drop_drop]
    congr 1
    omega
  rw [h1, h2]

theorem decodeMessage_rejects {P : Type} (cd : Codec P) (msg : SubAckMessage P)
    (src : List Byte) (i : Nat) (c : Byte) (hlen : msg.remLen ≤ src.length)
    (hprops : msg.version = ProtocolVersion.ProtocolV50 →
      (cd.decodeProperties msg.mType (src.drop (decodePacketID msg.packetID src).2)).2.2 = none)
    (hi : headerLen cd msg src + i < msg.remLen)
    (hfirst : ∀ j, j < i → ∀ x, src[headerLen cd msg src + j]? = some x →
      codeAccepted cd msg.version msg.mType x = true)
    (hc : src[headerLen cd msg src + i]? = some c)
    (hbad : codeAccepted cd msg.version msg.mType c = false) :
    ∃ m, decodeMessage cd msg src =
      some (m, (headerLen cd msg src : Int) + (i : Int),
        some (rejectError cd msg.version msg.mType c)) := by
  unfold decodeMessage
  by_cases hv : msg.version = ProtocolVersion.ProtocolV50
  · have hp := hprops hv
    have hk : headerLen cd msg src = (decodePacketID msg.packetID src).2 +
        (cd.decodeProperties msg.mType (src.drop (decodePacketID msg.packetID src).2)).2.1 := by
      simp [headerLen, hv]
    simp only [hv, if_true, hp]
    rw [← Nat.cast_add, ← hk]
    refine ⟨_, decodeTail_rejects cd _ src (headerLen cd msg src) i c hi hlen ?_ hc ?_⟩
    · simpa [hv] using hfirst
    · simpa [hv] using hbad
  · have hk : headerLen cd msg src = (decodePacketID msg.packetID src).2 := by
      simp [headerLen, hv]
    simp only [hv, if_false]
    rw [← hk]
    exact ⟨_, decodeTail_rejects cd _ src (headerLen cd msg src) i c hi hlen hfirst hc hbad⟩

theorem headerLen_V311 {P : Type} (cd : Codec P) (msg : SubAckMessage P) (src : List Byte)
    (i : Nat) (hv : msg.version = ProtocolVersion.ProtocolV311)
    (hp : msg.packetID.length = 0 ∨ msg.packetID.length = 2)
    (hlen : msg.remLen ≤ src.length) (hi : headerLen cd msg src + i < msg.remLen) :
    headerLen cd msg src = 2 := by
  have hk : headerLen cd msg src = (decodePacketID msg.packetID src).2 := by
    simp [headerLen, hv]
  have h2 : 2 ≤ src.length := by
    by_contra hlt
    have : (decodePacketID msg.packetID src).2 = src.length := by
      unfold decodePacketID goCopy
      rcases hp with hp | hp
      · simp [hp]; omega
      · have hne : ¬ msg.packetID.length = 0 := by omega
        simp [hne, hp]; omega
    omega
  rw [hk, decodePacketID_two msg.packetID src hp h2]

theorem AddReturnCodes_all {P : Type} (cd : Codec P) (ret : List ReasonCode) :
    ∀ msg : SubAckMessage P, (∀ q ∈ ret, codeAccepted cd msg.version msg.mType q = true) →
      AddReturnCodes cd msg ret = ({ msg with returnCodes := msg.returnCodes ++ ret }, none) := by
  induction ret with
  | nil => intro msg _; simp [AddReturnCodes]
  | cons q qs ih =>
    intro msg h
    have hq := h q (List.mem_cons_self q qs)
    have hqs : ∀ x ∈ qs, codeAccepted cd msg.version msg.mType x = true :=
      fun x hx => h x (List.mem_cons_of_mem q hx)
    simp only [codeAccepted, Bool.and_eq_true, Bool.not_eq_true', Bool.and_eq_false_imp,
      decide_eq_true_eq, Bool.not_eq_false'] at hq
    have h1 : ¬ (msg.version = ProtocolVersion.ProtocolV50 ∧
        cd.IsValidForType q msg.mType = false) := by
      rintro ⟨hv, ht⟩
      have := hq.1 hv
      simp [ht] at this
    have h2 : ¬ (IsValidFull q = false) := by simp [hq.2]
    rw [AddReturnCodes, if_neg h1, if_neg h2,
      ih { msg with returnCodes := msg.returnCodes ++ [q] } hqs]
    simp

theorem AddReturnCodes_first_rejected {P : Type} (cd : Codec P) (pre : List ReasonCode)
    (q : ReasonCode) (post : List ReasonCode) :
    ∀ msg : SubAckMessage P, (∀ x ∈ pre, codeAccepted cd msg.version msg.mType x = true) →
      codeAccepted cd msg.version msg.mType q = false →
      AddReturnCodes cd msg (pre ++ q :: post) =
        ({ msg with returnCodes := msg.returnCodes ++ pre }, some Error.ErrInvalidReturnCode) := by
  induction pre with
  | nil =>
    intro msg _ hq
    simp only [List.nil_append, List.append_nil]
    rw [AddReturnCodes]
    by_cases h1 : msg.version = ProtocolVersion.ProtocolV50 ∧ cd.IsValidForType q msg.mType = false
    · rw [if_pos h1]
    · have h2 : IsValidFull q = false := by
        simp only [codeAccepted, Bool.and_eq_false_imp, Bool.not_eq_true', Bool.and_eq_false_imp,
          decide_eq_true_eq, Bool.not_eq_false'] at hq
        apply hq
        intro hv
        by_contra hc
        exact h1 ⟨hv, by simpa using hc⟩
      rw [if_neg h1, if_pos h2]
  | cons p ps ih =>
    intro msg h hq
    have hp := h p (List.mem_cons_self p ps)
    have hps : ∀ x ∈ ps, codeAccepted cd msg.version msg.mType x = true :=
      fun x hx => h x (List.mem_cons_of_mem p hx)
    simp only [codeAccepted, Bool.and_eq_true, Bool.not_eq_true', Bool.and_eq_false_imp,
      decide_eq_true_eq, Bool.not_eq_false'] at hp
    have h1 : ¬ (msg.version = ProtocolVersion.ProtocolV50 ∧
        cd.IsValidForType p msg.mType = false) := by
      rintro ⟨hv, ht⟩
      have := hp.1 hv
      simp [ht] at this
    have h2 : ¬ (IsValidFull p = false) := by simp [hp.2]
    rw [List.cons_append, AddReturnCodes, if_neg h1, if_neg h2,
      ih { msg with returnCodes := msg.returnCodes ++ [p] } hps hq]
    simp

theorem setPacketID_eq (pid : List Byte) (v : PacketID)
    (hp : pid.length = 0 ∨ pid.length = 2) :
    setPacketID pid v =
      [⟨v.val / 256, by have := v.isLt; omega⟩, ⟨v.val % 256, by omega⟩] := by
  unfold setPacketID goCopy
  rcases hp with hp | hp
  · simp [hp]
  · have hne : ¬ pid.length = 0 := by omega
    simp [hne, hp]

theorem decodeMessage_tail {P : Type} (cd : Codec P) (msg : SubAckMessage P) (src : List Byte)
    (hprops : msg.version = ProtocolVersion.ProtocolV50 →
      (cd.decodeProperties msg.mType (src.drop (decodePacketID msg.packetID src).2)).2.2 = none) :
    ∃ m : SubAckMessage P, m.version = msg.version ∧ m.mType = msg.mType ∧
      m.remLen = msg.remLen ∧ m.returnCodes = msg.returnCodes ∧
      decodeMessage cd msg src = decodeTail cd m src ((headerLen cd msg src : Nat) : Int) := by
  by_cases hv : msg.version = ProtocolVersion.ProtocolV50
  · have hp := hprops hv
    have hk : headerLen cd msg src = (decodePacketID msg.packetID src).2 +
        (cd.decodeProperties msg.mType (src.drop (decodePacketID msg.packetID src).2)).2.1 := by
      simp [headerLen, hv]
    refine ⟨{ msg with
      packetID := (decodePacketID msg.packetID src).1,
      properties := (cd.decodeProperties msg.mType
        (src.drop (decodePacketID msg.packetID src).2)).1 }, rfl, rfl, rfl, rfl, ?_⟩
    rw [hk, Nat.cast_add]
    unfold decodeMessage
    simp only [hv, if_true, hp]
  · have hk : headerLen cd msg src = (decodePacketID msg.packetID src).2 := by
      simp [headerLen, hv]
    refine ⟨{ msg with packetID := (decodePacketID msg.packetID src).1 }, rfl, rfl, rfl, rfl, ?_⟩
    rw [hk]
    unfold decodeMessage
    simp only [hv, if_false]

/-! ## The claims -/

/-- Claim C1. Under V311, a fresh SubAckMessage with declared remaining length
`r ≥ 2` decodes any `src` with `len(src) ≥ r` successfully exactly when every
byte of `src[2:r]` is one of 0, 1, 2, 0x80; on success the count is `r`, the
packet ID is `src[0:2]` and `ReturnCodes()` is `src[2:r]` in order. -/
theorem decodeMessage_V311_fresh {P : Type} (cd : Codec P) (src : List Byte) (r : Nat)
    (hr : 2 ≤ r) (hlen : r ≤ src.length) :
    ((∃ m n, decodeMessage cd (newSubAckMessage P ProtocolVersion.ProtocolV311 r) src =
          some (m, n, none)) ↔
        ∀ b ∈ (src.drop 2).take (r - 2), b = 0 ∨ b = 1 ∨ b = 2 ∨ b = 0x80) ∧
      ∀ m n, decodeMessage cd (newSubAckMessage P ProtocolVersion.ProtocolV311 r) src =
          some (m, n, none) →
        n = (r : Int) ∧ m.packetID = src.take 2 ∧ ReturnCodes m = (src.drop 2).take (r - 2) := by
  have hred := decodeMessage_V311 cd (newSubAckMessage P ProtocolVersion.ProtocolV311 r) src rfl
    (Or.inl rfl) (by omega)
  rw [decodeTail_eq cd _ src 2 hr hlen] at hred
  rw [hred]
  simp only [newSubAckMessage]
  by_cases hall : ∀ q ∈ (src.drop 2).take (r - 2),
      codeAccepted cd ProtocolVersion.ProtocolV311 PacketType.SUBACK q = true
  · have hall' : ∀ b ∈ (src.drop 2).take (r - 2), b = 0 ∨ b = 1 ∨ b = 2 ∨ b = 0x80 := by
      intro b hb
      have := hall b hb
      rw [codeAccepted_V311] at this
      exact (IsValidFull_iff b).mp this
    rw [decodeCodes_all cd _ _ _ _ 0 [] hall]
    simp only [List.nil_append]
    refine ⟨⟨fun _ => hall', fun _ => ⟨_, _, rfl⟩⟩, ?_⟩
    intro m n h
    simp only [Option.some.injEq, Prod.mk.injEq, and_true] at h
    obtain ⟨hm, hn⟩ := h
    subst hm
    exact ⟨hn.symm, rfl, rfl⟩
  · obtain ⟨pre, q, post, heq, hpre, hq⟩ := exists_first_rejected cd _ _ _ hall
    have hall' : ¬ ∀ b ∈ (src.drop 2).take (r - 2), b = 0 ∨ b = 1 ∨ b = 2 ∨ b = 0x80 := by
      intro h
      apply hall
      intro b hb
      rw [codeAccepted_V311]
      exact (IsValidFull_iff b).mpr (h b hb)
    rw [heq, decodeCodes_first_rejected cd _ _ _ pre q post 0 [] hpre hq]
    simp only [Option.some.injEq, Prod.mk.injEq, and_false, exists_false, false_iff,
      reduceCtorEq, false_implies, implies_true, and_true]
    rw [← heq]
    exact hall'

/-- The count at the first code the loop of `decodeMessage` rejects by its own
test: when that code is `src[k+i]`, `k` being the bytes consumed by the packet
ID and (under V50) the properties block, the result is the count `k+i` with an
error; under V311 `k = 2` and the error is `CodeRefusedServerUnavailable`. -/
theorem decodeMessage_rejected_offset {P : Type} (cd : Codec P) (msg : SubAckMessage P)
    (src : List Byte) (i : Nat) (c : Byte) (hlen : msg.remLen ≤ src.length)
    (hprops : msg.version = ProtocolVersion.ProtocolV50 →
      (cd.decodeProperties msg.mType (src.drop (decodePacketID msg.packetID src).2)).2.2 = none)
    (hi : headerLen cd msg src + i < msg.remLen)
    (hfirst : ∀ j, j < i → ∀ x, src[headerLen cd msg src + j]? = some x →
      codeAccepted cd msg.version msg.mType x = true)
    (hc : src[headerLen cd msg src + i]? = some c)
    (hbad : codeAccepted cd msg.version msg.mType c = false) :
    (∃ m, decodeMessage cd msg src =
        some (m, (headerLen cd msg src : Int) + (i : Int),
          some (rejectError cd msg.version msg.mType c))) ∧
      (msg.version = ProtocolVersion.ProtocolV311 →
        (msg.packetID.length = 0 ∨ msg.packetID.length = 2) →
        headerLen cd msg src = 2 ∧
          rejectError cd msg.version msg.mType c = Error.CodeRefusedServerUnavailable) := by
  refine ⟨decodeMessage_rejects cd msg src i c hlen hprops hi hfirst hc hbad, ?_⟩
  intro hv hp
  refine ⟨headerLen_V311 cd msg src i hv hp hlen hi, ?_⟩
  simp [rejectError, hv]

/-- Claim C2. Under V50 `decodeMessage` does not report the offset of the first
invalid code: a code that the Reason Code Table marks valid for the message
type but that lies outside 0, 1, 2, 0x80 stops the loop first, and the result
is the offset of that valid code with `CodeRefusedServerUnavailable`, whatever
codes follow it. -/
theorem decodeMessage_V50_stops_at_valid_code {P : Type} (cd : Codec P)
    (msg : SubAckMessage P) (src : List Byte) (i : Nat) (c : Byte)
    (hv : msg.version = ProtocolVersion.ProtocolV50) (hlen : msg.remLen ≤ src.length)
    (hprops : (cd.decodeProperties msg.mType
      (src.drop (decodePacketID msg.packetID src).2)).2.2 = none)
    (hi : headerLen cd msg src + i < msg.remLen)
    (hfirst : ∀ j, j < i → ∀ x, src[headerLen cd msg src + j]? = some x →
      cd.IsValidForType x msg.mType = true ∧ IsValidFull x = true)
    (hc : src[headerLen cd msg src + i]? = some c)
    (ht : cd.IsValidForType c msg.mType = true) (hq : IsValidFull c = false) :
    ∃ m, decodeMessage cd msg src =
      some (m, (headerLen cd msg src : Int) + (i : Int),
        some Error.CodeRefusedServerUnavailable) := by
  have hbad : codeAccepted cd msg.version msg.mType c = false := by
    rw [hv]
    simp [codeAccepted, hq]
  have hpre : ∀ j, j < i → ∀ x, src[headerLen cd msg src + j]? = some x →
      codeAccepted cd msg.version msg.mType x = true := by
    intro j hj x hx
    obtain ⟨h1, h2⟩ := hfirst j hj x hx
    simp [codeAccepted, h1, h2]
  obtain ⟨m, hm⟩ := decodeMessage_rejects cd msg src i c hlen (fun _ => hprops) hi hpre hc hbad
  refine ⟨m, ?_⟩
  rw [hm]
  simp [rejectError, ht]

/-- Claim C3. Under V50 a code is accepted exactly when the Reason Code Table
marks it valid for the message type and it also lies in the QoS range 0, 1,
2, 0x80: `AddReturnCodes([c])` returns `nil`, and `decodeMessage` succeeds on
a payload that is the single byte `c`, if and only if both tests pass. -/
theorem V50_accepts_iff_table_and_qos {P : Type} (cd : Codec P) (msg : SubAckMessage P)
    (src : List Byte) (c : ReasonCode) (hv : msg.version = ProtocolVersion.ProtocolV50)
    (hlen : msg.remLen ≤ src.length)
    (hprops : (cd.decodeProperties msg.mType
      (src.drop (decodePacketID msg.packetID src).2)).2.2 = none)
    (hr : msg.remLen = headerLen cd msg src + 1) (hc : src[headerLen cd msg src]? = some c) :
    ((AddReturnCodes cd msg [c]).2 = none ↔
        (cd.IsValidForType c msg.mType = true ∧ IsValidFull c = true)) ∧
      ((∃ m n, decodeMessage cd msg src = some (m, n, none)) ↔
        (cd.IsValidForType c msg.mType = true ∧ IsValidFull c = true)) := by
  have hacc : codeAccepted cd msg.version msg.mType c = true ↔
      (cd.IsValidForType c msg.mType = true ∧ IsValidFull c = true) := by
    simp [codeAccepted, hv]
  obtain ⟨m1, h1v, h1t, h1r, h1c, hdec⟩ := decodeMessage_tail cd msg src (fun _ => hprops)
  rw [hdec, decodeTail_eq cd m1 src (headerLen cd msg src) (by omega) (by omega), h1v, h1t, h1r]
  have hcodes : (src.drop (headerLen cd msg src)).take (msg.remLen - headerLen cd msg src) =
      [c] := by
    have hlt : headerLen cd msg src < src.length := by omega
    have hone : msg.remLen - headerLen cd msg src = 1 := by omega
    rw [hone, List.drop_eq_getElem_cons hlt]
    rw [List.getElem?_eq_getElem hlt] at hc
    simp only [List.take_succ_cons, List.take_zero, Option.some.inj hc]
  rw [hcodes]
  by_cases hok : codeAccepted cd msg.version msg.mType c = true
  · have hall : ∀ q ∈ [c], codeAccepted cd msg.version msg.mType q = true := by
      intro q hq
      rw [List.mem_singleton.mp hq]
      exact hok
    rw [AddReturnCodes_all cd [c] msg hall, decodeCodes_all cd _ _ _ [c] 0 _ hall]
    exact ⟨⟨fun _ => hacc.mp hok, fun _ => rfl⟩, ⟨fun _ => hacc.mp hok, fun _ => ⟨_, _, rfl⟩⟩⟩
  · have hbad : codeAccepted cd msg.version msg.mType c = false := by simpa using hok
    have hno : ¬ (cd.IsValidForType c msg.mType = true ∧ IsValidFull c = true) :=
      fun h => hok (hacc.mpr h)
    have ha := AddReturnCodes_first_rejected cd [] c [] msg (by simp) hbad
    have hd := decodeCodes_first_rejected cd msg.version msg.mType
      ((headerLen cd msg src : Nat) : Int) [] c [] 0 m1.returnCodes (by simp) hbad
    simp only [List.nil_append] at ha hd
    rw [ha, hd]
    refine ⟨⟨fun h => ?_, fun h => absurd h hno⟩, ⟨fun h => ?_, fun h => absurd h hno⟩⟩
    · simp at h
    · obtain ⟨m, n, h⟩ := h
      simp at h

/-- Claim C4. For a V311 message `AddReturnCodes(ret)` returns `ErrInvalidReturnCode`
exactly when some element of `ret` is outside 0, 1, 2, 0x80, and `nil`
otherwise; when every element of `ret` is among 0, 1, 2, 0x80 it returns `nil`
and the message afterwards is the message before with the return codes
followed by `ret`; `AddReturnCode(c)` returns `nil` and appends exactly `c`
for a code among 0, 1, 2, 0x80, and returns `ErrInvalidReturnCode`, leaving
the message as it was, for any other code. -/
theorem AddReturnCodes_V311 {P : Type} (cd : Codec P) (msg : SubAckMessage P)
    (ret : List ReasonCode) (hv : msg.version = ProtocolVersion.ProtocolV311) :
    ((AddReturnCodes cd msg ret).2 = some Error.ErrInvalidReturnCode ↔
        ∃ c ∈ ret, ¬ (c = 0 ∨ c = 1 ∨ c = 2 ∨ c = 0x80)) ∧
      ((AddReturnCodes cd msg ret).2 = none ↔ ∀ c ∈ ret, c = 0 ∨ c = 1 ∨ c = 2 ∨ c = 0x80) ∧
      ((AddReturnCodes cd msg ret).2 = none →
        ReturnCodes (AddReturnCodes cd msg ret).1 = ReturnCodes msg ++ ret) ∧
      (∀ c, (AddReturnCode cd msg c).2 = none →
        ReturnCodes (AddReturnCode cd msg c).1 = ReturnCodes msg ++ [c]) ∧
      ((∀ c ∈ ret, c = 0 ∨ c = 1 ∨ c = 2 ∨ c = 0x80) →
        AddReturnCodes cd msg ret =
          ({ msg with returnCodes := msg.returnCodes ++ ret }, none)) ∧
      (∀ c, (c = 0 ∨ c = 1 ∨ c = 2 ∨ c = 0x80) →
        AddReturnCode cd msg c = ({ msg with returnCodes := msg.returnCodes ++ [c] }, none)) ∧
      ∀ c, ¬ (c = 0 ∨ c = 1 ∨ c = 2 ∨ c = 0x80) →
        AddReturnCode cd msg c = (msg, some Error.ErrInvalidReturnCode) := by
  have key : ∀ ret : List ReasonCode,
      ((∀ c ∈ ret, c = 0 ∨ c = 1 ∨ c = 2 ∨ c = 0x80) ∧
        AddReturnCodes cd msg ret = ({ msg with returnCodes := msg.returnCodes ++ ret }, none)) ∨
      ((∃ c ∈ ret, ¬ (c = 0 ∨ c = 1 ∨ c = 2 ∨ c = 0x80)) ∧
        (AddReturnCodes cd msg ret).2 = some Error.ErrInvalidReturnCode) := by
    intro ret
    by_cases hall : ∀ q ∈ ret, codeAccepted cd msg.version msg.mType q = true
    · left
      refine ⟨?_, AddReturnCodes_all cd ret msg hall⟩
      intro c hc
      have := hall c hc
      rw [hv, codeAccepted_V311] at this
      exact (IsValidFull_iff c).mp this
    · right
      obtain ⟨pre, q, post, heq, hpre, hq⟩ := exists_first_rejected cd _ _ ret hall
      refine ⟨⟨q, by simp [heq], ?_⟩, ?_⟩
      · intro hq'
        rw [hv, codeAccepted_V311] at hq
        rw [(IsValidFull_iff q).mpr hq'] at hq
        exact absurd hq (by simp)
      · rw [heq, AddReturnCodes_first_rejected cd pre q post msg hpre hq]
  refine ⟨?_, ?_, ?_, ?_, ?_, ?_, ?_⟩
  · rcases key ret with ⟨hall, heq⟩ | ⟨hex, heq⟩
    · rw [heq]
      constructor
      · intro h; simp at h
      · rintro ⟨c, hc, hbad⟩; exact absurd (hall c hc) hbad
    · exact ⟨fun _ => hex, fun _ => heq⟩
  · rcases key ret with ⟨hall, heq⟩ | ⟨hex, heq⟩
    · rw [heq]; exact ⟨fun _ => hall, fun _ => rfl⟩
    · rw [heq]
      constructor
      · intro h; simp at h
      · intro hall
        obtain ⟨c, hc, hbad⟩ := hex
        exact absurd (hall c hc) hbad
  · rcases key ret with ⟨_, heq⟩ | ⟨_, heq⟩
    · intro _; rw [heq]; rfl
    · intro h; rw [heq] at h; simp at h
  · intro c
    unfold AddReturnCode
    rcases key [c] with ⟨_, heq⟩ | ⟨_, heq⟩
    · intro _; rw [heq]; rfl
    · intro h; rw [heq] at h; simp at h
  · intro hall
    rcases key ret with ⟨_, heq⟩ | ⟨⟨c, hc, hbad⟩, _⟩
    · exact heq
    · exact absurd (hall c hc) hbad
  · intro c hc
    unfold AddReturnCode
    rcases key [c] with ⟨_, heq⟩ | ⟨⟨q, hq, hbad⟩, _⟩
    · exact heq
    · rw [List.mem_singleton.mp hq] at hbad
      exact absurd hc hbad
  · intro c hc
    unfold AddReturnCode
    have hbad : codeAccepted cd msg.version msg.mType c = false := by
      rw [hv, codeAccepted_V311]
      by_contra hne
      exact hc ((IsValidFull_iff c).mp (by simpa using hne))
    have := AddReturnCodes_first_rejected cd [] c [] msg (by simp) hbad
    simpa using this

/-- Claim C5. A message whose packet ID was never set encodes to
`(0, ErrPackedIDZero)` whatever its version and return codes, and `dst` is
left as it was. -/
theorem encodeMessage_packetID_unset {P : Type} (cd : Codec P) (msg : SubAckMessage P)
    (dst : List Byte) (h : msg.packetID = []) :
    encodeMessage cd msg dst = some (dst, 0, some Error.ErrPackedIDZero) := by
  unfold encodeMessage
  simp [h]

/-- Claim C6. After `SetPacketID(0)` a V311 message encodes without error into any
buffer of at least `size()` bytes: the count is `2 + len(returnCodes)` and the
packet starts with the packet ID bytes 0x00 0x00. -/
theorem encodeMessage_packetID_zero {P : Type} (cd : Codec P) (msg : SubAckMessage P)
    (dst : List Byte) (hv : msg.version = ProtocolVersion.ProtocolV311)
    (hp : msg.packetID.length = 0 ∨ msg.packetID.length = 2)
    (hd : 2 + msg.returnCodes.length ≤ dst.length) :
    encodeMessage cd (SetPacketID msg 0) dst =
      some ([0, 0] ++ msg.returnCodes ++ dst.drop (2 + msg.returnCodes.length),
        ((2 + msg.returnCodes.length : Nat) : Int), none) := by
  have hid : (SetPacketID msg 0).packetID = [0, 0] := by
    simp only [SetPacketID]
    rw [setPacketID_eq msg.packetID 0 hp]
    rfl
  have := encodeMessage_V311 cd (SetPacketID msg 0) dst hv (by rw [hid]; rfl) hd
  rw [hid] at this
  exact this

/-- A V311 message with its packet ID set, on a buffer shorter than `size()`:
without return codes the result is `(len(dst), nil)`, a truncated packet ID;
with at least one return code the write `dst[total] = byte(q)` runs out of
range. -/
theorem encodeMessage_short_V311 {P : Type} (cd : Codec P) (msg : SubAckMessage P)
    (dst : List Byte) (hv : msg.version = ProtocolVersion.ProtocolV311)
    (hp : msg.packetID.length = 2) (hd : (dst.length : Int) < size cd msg) :
    (msg.returnCodes = [] →
        encodeMessage cd msg dst = some (msg.packetID.take dst.length, (dst.length : Int), none)) ∧
      (msg.returnCodes ≠ [] → encodeMessage cd msg dst = none) := by
  have hsz : size cd msg = 2 + (msg.returnCodes.length : Int) := by
    simp [size, hv]
  rw [hsz] at hd
  have hne : ¬ msg.packetID.length = 0 := by omega
  constructor
  · intro hrc
    rw [hrc] at hd
    simp only [List.length_nil] at hd
    have hmin : min dst.length msg.packetID.length = dst.length := by omega
    unfold encodeMessage encodePacketID goCopy
    simp only [hne, if_false, hv, reduceCtorEq, hmin, hrc, encodeCodes, List.drop_length,
      List.append_nil]
  · intro hrc
    have hpos : 0 < msg.returnCodes.length := List.length_pos.mpr hrc
    unfold encodeMessage encodePacketID goCopy
    simp only [hne, if_false, hv, reduceCtorEq]
    rw [encodeCodes_panic _ _ _ hpos]
    simp only [List.length_append, List.length_take, List.length_drop]
    omega

theorem encodeMessage_error_source {P : Type} (cd : Codec P) (msg : SubAckMessage P)
    (dst d : List Byte) (n : Int) (e : Error) (hp : msg.packetID.length = 2)
    (h : encodeMessage cd msg dst = some (d, n, some e)) :
    msg.version = ProtocolVersion.ProtocolV50 ∧
      (cd.encodeProperties msg.properties
        ((encodePacketID msg.packetID dst).1.drop (encodePacketID msg.packetID dst).2)).2.2 =
        some e := by
  have hne : ¬ msg.packetID.length = 0 := by omega
  unfold encodeMessage at h
  simp only [hne, if_false] at h
  split at h
  · rename_i hv
    refine ⟨hv, ?_⟩
    split at h
    · rename_i err herr
      simp only [Option.some.injEq, Prod.mk.injEq] at h
      rw [herr, h.2.2]
    · split at h
      · simp at h
      · simp at h
  · split at h
    · simp at h
    · simp at h

/-- Claim C8, as amended. `encodeMessage` makes no length test of its own.  For
a message with its packet ID set and a `dst` shorter than `size()`, the only
error it can return is the one `encodeProperties` returns under V50; under
V311 it returns no error: without return codes the result is
`(len(dst), nil)` with the packet ID cut to `len(dst)` bytes, and with at
least one return code the write `dst[total] = byte(q)` runs out of range. -/
theorem encodeMessage_short_buffer {P : Type} (cd : Codec P) (msg : SubAckMessage P)
    (dst : List Byte) (hp : msg.packetID.length = 2)
    (hd : (dst.length : Int) < size cd msg) :
    (∀ (d : List Byte) (n : Int) (e : Error),
        encodeMessage cd msg dst = some (d, n, some e) →
          msg.version = ProtocolVersion.ProtocolV50 ∧
            (cd.encodeProperties msg.properties
              ((encodePacketID msg.packetID dst).1.drop
                (encodePacketID msg.packetID dst).2)).2.2 = some e) ∧
      (msg.version = ProtocolVersion.ProtocolV311 →
        (msg.returnCodes = [] →
            encodeMessage cd msg dst =
              some (msg.packetID.take dst.length, (dst.length : Int), none)) ∧
          (msg.returnCodes ≠ [] → encodeMessage cd msg dst = none)) := by
  refine ⟨?_, ?_⟩
  · intro d n e h
    exact encodeMessage_error_source cd msg dst d n e hp h
  · intro hv
    exact encodeMessage_short_V311 cd msg dst hv hp hd

/-- Claim C8, the claim as stated fails: a V311 message with packet ID 7 and no
return codes has `size() = 2`, and on the empty `dst` `encodeMessage` returns
the count 0 with a nil error, not an error. -/
theorem encodeMessage_short_buffer_counterexample :
    size sampleCodec (SetPacketID (newSubAckMessage Unit ProtocolVersion.ProtocolV311 0) 7) = 2 ∧
      encodeMessage sampleCodec
          (SetPacketID (newSubAckMessage Unit ProtocolVersion.ProtocolV311 0) 7) [] =
        some ([], 0, none) :=
  ⟨rfl, rfl⟩

/-- Claim C9. A V311 message whose declared remaining length is below 2 panics in
`decodeMessage` on any `src` of at least 2 bytes: the packet ID takes 2 bytes,
`numCodes` is negative and the slice expression `src[total : total+numCodes]`
is out of range. -/
theorem decodeMessage_short_remLen {P : Type} (cd : Codec P) (msg : SubAckMessage P)
    (src : List Byte) (hv : msg.version = ProtocolVersion.ProtocolV311)
    (hp : msg.packetID.length = 0 ∨ msg.packetID.length = 2) (hr : msg.remLen < 2)
    (hs : 2 ≤ src.length) :
    decodeMessage cd msg src = none := by
  rw [decodeMessage_V311 cd msg src hv hp hs]
  exact decodeTail_panic cd _ src 2 (Or.inl hr)

/-- Claim C10. SUBACK round trip under V311.  A message with its packet ID set and
return codes among 0, 1, 2, 0x80 encodes into any `dst` of at least `size()`
bytes, writing `n` bytes; decoding `dst[0:n]` with a fresh V311 message of
remaining length `n` succeeds, returns `n`, and yields the same packet ID and
the same return codes. -/
theorem roundtrip_V311 {P : Type} (cd : Codec P) (msg : SubAckMessage P) (dst : List Byte)
    (hv : msg.version = ProtocolVersion.ProtocolV311) (hp : msg.packetID.length = 2)
    (hc : ∀ c ∈ msg.returnCodes, c = 0 ∨ c = 1 ∨ c = 2 ∨ c = 0x80)
    (hd : size cd msg ≤ (dst.length : Int)) :
    ∃ (dst1 : List Byte) (n : Nat) (m : SubAckMessage P),
      encodeMessage cd msg dst = some (dst1, (n : Int), none) ∧
        (n : Int) = size cd msg ∧
        decodeMessage cd (newSubAckMessage P ProtocolVersion.ProtocolV311 n) (dst1.take n) =
          some (m, (n : Int), none) ∧
        m.packetID = msg.packetID ∧ ReturnCodes m = ReturnCodes msg := by
  have hsz : size cd msg = 2 + (msg.returnCodes.length : Int) := by
    simp [size, hv]
  rw [hsz] at hd
  have hd' : 2 + msg.returnCodes.length ≤ dst.length := by omega
  refine ⟨_, 2 + msg.returnCodes.length,
    { packetID := msg.packetID, properties := none, remLen := 2 + msg.returnCodes.length,
      mType := PacketType.SUBACK, version := ProtocolVersion.ProtocolV311,
      returnCodes := msg.returnCodes },
    encodeMessage_V311 cd msg dst hv hp hd', ?_, ?_, rfl, rfl⟩
  · rw [hsz]; push_cast; rfl
  have htake : (msg.packetID ++ msg.returnCodes ++ dst.drop (2 + msg.returnCodes.length)).take
      (2 + msg.returnCodes.length) = msg.packetID ++ msg.returnCodes := by
    rw [List.take_append_of_le_length (by simp only [List.length_append]; omega)]
    exact List.take_of_length_le (by simp only [List.length_append]; omega)
  rw [htake]
  have hred := decodeMessage_V311 cd
    (newSubAckMessage P ProtocolVersion.ProtocolV311 (2 + msg.returnCodes.length))
    (msg.packetID ++ msg.returnCodes) rfl (Or.inl rfl) (by simp only [List.length_append]; omega)
  rw [decodeTail_eq cd _ _ 2 (by simp [newSubAckMessage])
    (by simp only [newSubAckMessage, List.length_append]; omega)] at hred
  have hcodes : ((msg.packetID ++ msg.returnCodes).drop 2).take
      (2 + msg.returnCodes.length - 2) = msg.returnCodes := by
    rw [List.drop_append_of_le_length (by omega), ← hp, List.drop_length, List.nil_append]
    exact List.take_of_length_le (by omega)
  have hpid : (msg.packetID ++ msg.returnCodes).take 2 = msg.packetID := by
    rw [List.take_append_of_le_length (by omega), ← hp]
    exact List.take_length _
  have hall : ∀ q ∈ msg.returnCodes,
      codeAccepted cd ProtocolVersion.ProtocolV311 PacketType.SUBACK q = true := by
    intro q hq
    rw [codeAccepted_V311]
    exact (IsValidFull_iff q).mpr (hc q hq)
  simp only [newSubAckMessage] at hred
  rw [hcodes, hpid, decodeCodes_all cd _ _ _ _ 0 [] hall] at hred
  simp only [List.nil_append] at hred
  exact hred

/-! ## The dispatch layer: lemmas and claims -/

theorem Outcome.bind_eq_ok {α β : Type} (x : Outcome α) (f : α → Outcome β) (y : β)
    (h : x.bind f = Outcome.ok y) : ∃ a, x = Outcome.ok a ∧ f a = Outcome.ok y := by
  cases x with
  | ok a => exact ⟨a, rfl, h⟩
  | fail e => simp [Outcome.bind] at h
  | panic => simp [Outcome.bind] at h
  | unmodelled => simp [Outcome.bind] at h

theorem decodeVarIntAux_consumed :
    ∀ (fuel mult acc cnt : Nat) (buf : List Byte) (L m : Nat),
      decodeVarIntAux fuel mult acc cnt buf = Outcome.ok (L, m) →
        cnt < m ∧ m - cnt ≤ buf.length ∧
          ∀ tail, decodeVarIntAux fuel mult acc cnt (buf.take (m - cnt) ++ tail) =
            Outcome.ok (L, m) := by
  intro fuel
  induction fuel with
  | zero => intro mult acc cnt buf L m h; simp [decodeVarIntAux] at h
  | succ fuel ih =>
    intro mult acc cnt buf L m h
    cases buf with
    | nil => simp [decodeVarIntAux] at h
    | cons b rest =>
      rw [decodeVarIntAux] at h
      by_cases hb : b.val < 128
      · rw [if_pos hb] at h
        simp only [Outcome.ok.injEq, Prod.mk.injEq] at h
        obtain ⟨hL, hm⟩ := h
        subst hm
        refine ⟨by omega, by simp, ?_⟩
        intro tail
        have h1 : cnt + 1 - cnt = 1 := by omega
        rw [h1]
        simp only [List.take_succ_cons, List.take_zero, List.singleton_append]
        rw [decodeVarIntAux, if_pos hb, hL]
      · rw [if_neg hb] at h
        obtain ⟨h1, h2, h3⟩ := ih _ _ _ rest L m h
        refine ⟨by omega, by simp only [List.length_cons]; omega, ?_⟩
        intro tail
        have hm : m - cnt = (m - (cnt + 1)) + 1 := by omega
        rw [hm, List.take_succ_cons, List.cons_append, decodeVarIntAux, if_neg hb]
        exact h3 tail

theorem decodeVarInt_consumed (buf : List Byte) (L m : Nat)
    (h : decodeVarInt buf = Outcome.ok (L, m)) :
    0 < m ∧ m ≤ buf.length ∧ ∀ tail, decodeVarInt (buf.take m ++ tail) = Outcome.ok (L, m) := by
  have := decodeVarIntAux_consumed 4 1 0 0 buf L m h
  simpa [decodeVarInt] using this

theorem DecodeFixedHeader_ok (b : Byte) (rest : List Byte) (L m : Nat)
    (hf : PacketType.ofCode (b.val / 16) = PacketType.PUBLISH ∨
      b.val % 16 = DefaultFlags (PacketType.ofCode (b.val / 16)))
    (hv : decodeVarInt rest = Outcome.ok (L, m)) (hl : L ≤ rest.length - m) :
    DecodeFixedHeader (b :: rest) =
      Outcome.ok (PacketType.ofCode (b.val / 16), b.val % 16, L, 1 + m) := by
  unfold DecodeFixedHeader
  have hc : ¬ (PacketType.ofCode (b.val / 16) ≠ PacketType.PUBLISH ∧
      b.val % 16 ≠ DefaultFlags (PacketType.ofCode (b.val / 16))) := by
    rintro ⟨h1, h2⟩
    rcases hf with hf | hf
    · exact h1 hf
    · exact h2 hf
  simp only [hc, if_false, hv, Outcome.bind]
  rw [if_neg (by omega)]

theorem DecodeFixedHeader_short (b : Byte) (rest : List Byte) (L m : Nat)
    (hf : PacketType.ofCode (b.val / 16) = PacketType.PUBLISH ∨
      b.val % 16 = DefaultFlags (PacketType.ofCode (b.val / 16)))
    (hv : decodeVarInt rest = Outcome.ok (L, m)) (hl : rest.length - m < L) :
    DecodeFixedHeader (b :: rest) = Outcome.fail Error.ErrInsufficientDataSize := by
  unfold DecodeFixedHeader
  have hc : ¬ (PacketType.ofCode (b.val / 16) ≠ PacketType.PUBLISH ∧
      b.val % 16 ≠ DefaultFlags (PacketType.ofCode (b.val / 16))) := by
    rintro ⟨h1, h2⟩
    rcases hf with hf | hf
    · exact h1 hf
    · exact h2 hf
  simp only [hc, if_false, hv, Outcome.bind]
  rw [if_pos hl]

theorem DecodeFixedHeader_inv (buf : List Byte) (t : PacketType) (f L hlen : Nat)
    (h : DecodeFixedHeader buf = Outcome.ok (t, f, L, hlen)) :
    ∃ b rest m, buf = b :: rest ∧ t = PacketType.ofCode (b.val / 16) ∧ f = b.val % 16 ∧
      (t = PacketType.PUBLISH ∨ f = DefaultFlags t) ∧
      decodeVarInt rest = Outcome.ok (L, m) ∧ L ≤ rest.length - m ∧ hlen = 1 + m := by
  unfold DecodeFixedHeader at h
  cases buf with
  | nil => simp at h
  | cons b rest =>
    simp only at h
    split at h
    · simp at h
    · rename_i hc
      obtain ⟨r, hr, hres⟩ := Outcome.bind_eq_ok _ _ _ h
      split at hres
      · simp at hres
      · rename_i hl
        simp only [Outcome.ok.injEq, Prod.mk.injEq] at hres
        obtain ⟨ht, hf, hL, hh⟩ := hres
        refine ⟨b, rest, r.2, rfl, ht.symm, hf.symm, ?_, ?_, ?_, hh.symm⟩
        · rw [← ht, ← hf]
          by_contra hno
          apply hc
          constructor
          · intro h1; exact hno (Or.inl h1)
          · intro h2; exact hno (Or.inr h2)
        · rw [hr, ← hL]
        · rw [← hL]; omega

theorem Decode_intro {P : Type} (cd : Codec P) (v : ProtocolVersion) (b : Byte)
    (rest : List Byte) (L m : Nat) (msg0 msg1 : Message P)
    (hf : PacketType.ofCode (b.val / 16) = PacketType.PUBLISH ∨
      b.val % 16 = DefaultFlags (PacketType.ofCode (b.val / 16)))
    (hv : decodeVarInt rest = Outcome.ok (L, m)) (hl : L ≤ rest.length - m)
    (hn : NewMessage P v (PacketType.ofCode (b.val / 16)) = Outcome.ok msg0)
    (hd : (msg0.setRemLen L).decodeMessage cd (rest.drop m) = Outcome.ok (msg1, L)) :
    Decode cd v (b :: rest) = Outcome.ok (msg1, 1 + m + L) := by
  unfold Decode
  rw [DecodeFixedHeader_ok b rest L m hf hv hl]
  simp only [Outcome.bind, hn]
  have hdrop : (b :: rest).drop (1 + m) = rest.drop m := by
    rw [Nat.add_comm, List.drop_succ_cons]
  rw [hdrop, hd]
  simp

theorem Decode_inv {P : Type} (cd : Codec P) (v : ProtocolVersion) (buf : List Byte)
    (msg : Message P) (n : Nat) (h : Decode cd v buf = Outcome.ok (msg, n)) :
    ∃ b rest L m msg0, buf = b :: rest ∧
      (PacketType.ofCode (b.val / 16) = PacketType.PUBLISH ∨
        b.val % 16 = DefaultFlags (PacketType.ofCode (b.val / 16))) ∧
      decodeVarInt rest = Outcome.ok (L, m) ∧ L ≤ rest.length - m ∧
      NewMessage P v (PacketType.ofCode (b.val / 16)) = Outcome.ok msg0 ∧
      (msg0.setRemLen L).decodeMessage cd (rest.drop m) = Outcome.ok (msg, L) ∧
      n = 1 + m + L := by
  unfold Decode at h
  obtain ⟨⟨t, f, L, hlen⟩, hfh, h1⟩ := Outcome.bind_eq_ok _ _ _ h
  obtain ⟨msg0, hnm, h2⟩ := Outcome.bind_eq_ok _ _ _ h1
  obtain ⟨r, hdm, h3⟩ := Outcome.bind_eq_ok _ _ _ h2
  obtain ⟨b, rest, m, hbuf, ht, hf, hfl, hvi, hl, hh⟩ := DecodeFixedHeader_inv buf t f L hlen hfh
  simp only at hnm hdm h3
  split at h3
  · rename_i hr
    simp only [Outcome.ok.injEq, Prod.mk.injEq] at h3
    obtain ⟨hmsg, hn⟩ := h3
    subst hbuf
    have hdrop : (b :: rest).drop hlen = rest.drop m := by
      rw [hh, Nat.add_comm, List.drop_succ_cons]
    rw [hdrop] at hdm
    refine ⟨b, rest, L, m, msg0, rfl, ?_, hvi, hl, ?_, ?_, ?_⟩
    · rw [← ht, ← hf]; exact hfl
    · rw [← ht]; exact hnm
    · rw [hdm, ← hmsg, ← hr]
    · rw [← hn, hh, hr]
  · simp at h3

theorem decodeVarInt_single (b : Byte) (rest : List Byte) (hb : b.val < 128) :
    decodeVarInt (b :: rest) = Outcome.ok (b.val, 1) := by
  simp [decodeVarInt, decodeVarIntAux, hb]

theorem packetID_bytes (id : PacketID) :
    ([⟨id.val / 256, by have := id.isLt; omega⟩, ⟨id.val % 256, by omega⟩] : List Byte) =
      [toByte (id.val / 256), toByte (id.val % 256)] := by
  have h := id.isLt
  simp only [toByte, List.cons.injEq, Fin.mk.injEq, and_true]
  constructor <;> omega

theorem ackPacketID_bytes {P : Type} (msg : AckMessage P) (id : PacketID)
    (h : msg.packetID = [toByte (id.val / 256), toByte (id.val % 256)]) :
    msg.PacketID = some id := by
  have hid := id.isLt
  unfold AckMessage.PacketID
  rw [h]
  simp only [toByte, Option.some.injEq]
  apply Fin.ext
  simp only
  omega

theorem decodePacketID_fresh (src : List Byte) (hs : 2 ≤ src.length) :
    decodePacketID [] src = (src.take 2, 2) :=
  decodePacketID_two [] src (Or.inl rfl) hs

/-- Claim C12. For every packet ID `id` in 1..65535, `Decode(ProtocolV311, [0x40, 0x02,
id >> 8, id & 0xFF])` succeeds, returns an `AckMessage` whose type is PUBACK
and whose `PacketID()` is `id`, and reports 4 bytes consumed. -/
theorem Decode_PUBACK {P : Type} (cd : Codec P) (id : PacketID) (_hid : 1 ≤ id.val) :
    ∃ m : AckMessage P,
      Decode cd ProtocolVersion.ProtocolV311
          [0x40, 0x02, toByte (id.val / 256), toByte (id.val % 256)] =
        Outcome.ok (Message.ack m, 4) ∧
      (Message.ack m).TypeOf = PacketType.PUBACK ∧ m.PacketID = some id := by
  refine ⟨
    { packetID := [toByte (id.val / 256), toByte (id.val % 256)], properties := none,
      remLen := 2, mType := PacketType.PUBACK, version := ProtocolVersion.ProtocolV311,
      reasonCode := 0 }, ?_, rfl, ackPacketID_bytes _ id rfl⟩
  have h := Decode_intro cd ProtocolVersion.ProtocolV311 0x40
    [0x02, toByte (id.val / 256), toByte (id.val % 256)] 2 1
    (Message.ack
      { packetID := [], properties := none, remLen := 0, mType := PacketType.PUBACK,
        version := ProtocolVersion.ProtocolV311, reasonCode := 0 })
    (Message.ack
      { packetID := [toByte (id.val / 256), toByte (id.val % 256)], properties := none,
        remLen := 2, mType := PacketType.PUBACK, version := ProtocolVersion.ProtocolV311,
        reasonCode := 0 })
    (Or.inr (by decide)) (decodeVarInt_single 0x02 _ (by decide)) (by simp) rfl
    (by
      simp only [Message.setRemLen, Message.decodeMessage, AckMessage.decodeMessage,
        List.drop_succ_cons, List.drop_zero]
      rw [decodePacketID_fresh _ (by simp)]
      simp [Outcome.bind])
  exact h

theorem Encode_intro {P : Type} (cd : Codec P) (msg : Message P) (dst : List Byte) (sz : Nat)
    (lenBytes body : List Byte) (k : Nat) (hs : msg.size cd = Outcome.ok sz)
    (hv : encodeVarInt sz = some lenBytes) (hl : 1 + lenBytes.length + sz ≤ dst.length)
    (he : msg.encodeMessage cd (dst.drop (1 + lenBytes.length)) = Outcome.ok (body, k)) :
    Encode cd msg dst =
      Outcome.ok (toByte (msg.TypeOf.code * 16 + DefaultFlags msg.TypeOf) :: lenBytes ++ body,
        1 + lenBytes.length + k) := by
  unfold Encode
  simp only [hs, Outcome.bind, hv]
  rw [if_neg (by omega), he]

theorem encodeVarInt_small (v : Nat) (hv : v < 128) : encodeVarInt v = some [toByte v] := by
  unfold encodeVarInt
  rw [if_neg (by omega)]
  simp [encodeVarIntAux, hv]

/-- Claim C13. For every packet ID `id` in 1..65535, the message obtained from
`NewMessage(ProtocolV311, PUBACK)` followed by `SetPacketID(id)` reports
`PacketID() = id`, and `Encode` into any buffer of length at least 4
succeeds, returns 4 and writes exactly `[0x40, 0x02, id >> 8, id & 0xFF]`,
leaving the rest of the buffer as it was. -/
theorem Encode_PUBACK {P : Type} (cd : Codec P) (id : PacketID) (dst : List Byte)
    (hid : 1 ≤ id.val) (hd : 4 ≤ dst.length) :
    ∃ m : AckMessage P,
      NewMessage P ProtocolVersion.ProtocolV311 PacketType.PUBACK = Outcome.ok (Message.ack m) ∧
      (m.SetPacketID id).PacketID = some id ∧
      Encode cd (Message.ack (m.SetPacketID id)) dst =
        Outcome.ok
          ([0x40, 0x02, toByte (id.val / 256), toByte (id.val % 256)] ++ dst.drop 4, 4) := by
  have hlt := id.isLt
  have hpid : ∀ m : AckMessage P, m.packetID = [] →
      (m.SetPacketID id).packetID = [toByte (id.val / 256), toByte (id.val % 256)] := by
    intro m hm
    simp only [AckMessage.SetPacketID]
    rw [setPacketID_eq m.packetID id (Or.inl (by rw [hm]; rfl)), packetID_bytes]
  refine ⟨_, rfl, ackPacketID_bytes _ id (hpid _ rfl), ?_⟩
  have hne : ¬ ([toByte (id.val / 256), toByte (id.val % 256)] : List Byte) = [0, 0] := by
    intro h
    simp only [toByte, List.cons.injEq, and_true] at h
    have h1 := congrArg Fin.val h.1
    have h2 := congrArg Fin.val h.2
    simp only [Fin.val_zero] at h1 h2
    omega
  have h := Encode_intro cd
    (Message.ack (AckMessage.SetPacketID
      { packetID := [], properties := none, remLen := 0, mType := PacketType.PUBACK,
        version := ProtocolVersion.ProtocolV311, reasonCode := 0 } id))
    dst 2 [0x02] ([toByte (id.val / 256), toByte (id.val % 256)] ++ dst.drop 4) 2 rfl
    (encodeVarInt_small 2 (by decide)) (by simpa using hd)
    (by
      simp only [Message.encodeMessage, AckMessage.encodeMessage]
      rw [hpid _ rfl]
      simp only [AckMessage.SetPacketID, reduceCtorEq, if_false, List.length_cons,
        List.length_nil, hne, or_self, encodePacketID, goCopy, List.length_drop]
      have hmin : min (dst.length - (1 + 1)) (0 + 1 + 1) = 2 := by omega
      simp [hmin])
  exact h

theorem Decode_short {P : Type} (cd : Codec P) (v : ProtocolVersion) (b : Byte)
    (rest : List Byte) (L m : Nat)
    (hf : PacketType.ofCode (b.val / 16) = PacketType.PUBLISH ∨
      b.val % 16 = DefaultFlags (PacketType.ofCode (b.val / 16)))
    (hv : decodeVarInt rest = Outcome.ok (L, m)) (hl : rest.length - m < L) :
    Decode cd v (b :: rest) = Outcome.fail Error.ErrInsufficientDataSize := by
  unfold Decode
  rw [DecodeFixedHeader_short b rest L m hf hv hl]
  rfl

theorem Decode_variant_fail {P : Type} (cd : Codec P) (v : ProtocolVersion) (b : Byte)
    (rest : List Byte) (L m : Nat) (msg0 : Message P) (e : Error)
    (hf : PacketType.ofCode (b.val / 16) = PacketType.PUBLISH ∨
      b.val % 16 = DefaultFlags (PacketType.ofCode (b.val / 16)))
    (hv : decodeVarInt rest = Outcome.ok (L, m)) (hl : L ≤ rest.length - m)
    (hn : NewMessage P v (PacketType.ofCode (b.val / 16)) = Outcome.ok msg0)
    (hd : (msg0.setRemLen L).decodeMessage cd (rest.drop m) = Outcome.fail e) :
    Decode cd v (b :: rest) = Outcome.fail e := by
  unfold Decode
  rw [DecodeFixedHeader_ok b rest L m hf hv hl]
  simp only [Outcome.bind, hn]
  have hdrop : (b :: rest).drop (1 + m) = rest.drop m := by
    rw [Nat.add_comm, List.drop_succ_cons]
  rw [hdrop, hd]

/-- Claim C14, as amended. A buffer whose first byte carries the flags that its
packet type requires (any flags for PUBLISH) and whose fixed header declares a
remaining length larger than the number of bytes that follow the fixed header
is refused by `Decode` with the insufficient-data error, not the
malformed-packet error, in either protocol version. -/
theorem Decode_insufficient_data {P : Type} (cd : Codec P) (v : ProtocolVersion) (b : Byte)
    (rest : List Byte) (L m : Nat)
    (hf : PacketType.ofCode (b.val / 16) = PacketType.PUBLISH ∨
      b.val % 16 = DefaultFlags (PacketType.ofCode (b.val / 16)))
    (hv : decodeVarInt rest = Outcome.ok (L, m)) (hl : rest.length - m < L) :
    Decode cd v (b :: rest) = Outcome.fail Error.ErrInsufficientDataSize ∧
      Decode cd v (b :: rest) ≠ Outcome.fail Error.CodeMalformedPacket := by
  have h := Decode_short cd v b rest L m hf hv hl
  refine ⟨h, ?_⟩
  rw [h]
  simp

/-- Claim C14, the claim as stated fails: the fixed header of
`[0x41, 0x02, 0x07]` declares the remaining length 2 and one byte follows it,
and `Decode` returns the malformed-packet error, because the flags 1 are not
those of PUBACK. -/
theorem Decode_insufficient_data_counterexample :
    decodeVarInt [0x02, 0x07] = Outcome.ok (2, 1) ∧
      ([0x02, 0x07] : List Byte).length - 1 < 2 ∧
      Decode sampleCodec ProtocolVersion.ProtocolV311 [0x41, 0x02, 0x07] =
        Outcome.fail Error.CodeMalformedPacket ∧
      Decode sampleCodec ProtocolVersion.ProtocolV50 [0x41, 0x02, 0x07] =
        Outcome.fail Error.CodeMalformedPacket :=
  ⟨rfl, by decide, rfl, rfl⟩

/-- Claim C15. The 2-byte packet `[0xE0, 0x00]` is the complete DISCONNECT:
`Decode` accepts it under ProtocolV311 and under ProtocolV50, returning a
`DisconnectMessage` of type DISCONNECT and the count 2; and the zero-valued
message of `NewMessage(ProtocolV311, DISCONNECT)` encodes, into any buffer of
length at least 2, to exactly `[0xE0, 0x00]` with 2 bytes written. -/
theorem DISCONNECT_two_bytes {P : Type} (cd : Codec P) (dst : List Byte)
    (hd : 2 ≤ dst.length) :
    (∀ v : ProtocolVersion, ∃ m : DisconnectMessage P,
        Decode cd v [0xE0, 0x00] = Outcome.ok (Message.disconnect m, 2) ∧
          (Message.disconnect m).TypeOf = PacketType.DISCONNECT) ∧
      ∃ m0 : Message P,
        NewMessage P ProtocolVersion.ProtocolV311 PacketType.DISCONNECT = Outcome.ok m0 ∧
          Encode cd m0 dst = Outcome.ok ([0xE0, 0x00] ++ dst.drop 2, 2) := by
  constructor
  · intro v
    refine ⟨
      { properties := none, remLen := 0, mType := PacketType.DISCONNECT, version := v,
        reasonCode := 0 }, ?_, rfl⟩
    have h := Decode_intro cd v 0xE0 [0x00] 0 1
      (Message.disconnect
        { properties := none, remLen := 0, mType := PacketType.DISCONNECT, version := v,
          reasonCode := 0 })
      (Message.disconnect
        { properties := none, remLen := 0, mType := PacketType.DISCONNECT, version := v,
          reasonCode := 0 })
      (Or.inr (by decide)) (decodeVarInt_single 0x00 _ (by decide)) (by simp) rfl
      (by
        cases v <;>
          simp [Message.setRemLen, Message.decodeMessage, DisconnectMessage.decodeMessage,
            Outcome.bind])
    exact h
  · refine ⟨_, rfl, ?_⟩
    have h := Encode_intro cd
      (Message.disconnect
        { properties := none, remLen := 0, mType := PacketType.DISCONNECT,
          version := ProtocolVersion.ProtocolV311, reasonCode := 0 })
      dst 0 [0x00] (dst.drop 2) 0 rfl (encodeVarInt_small 0 (by decide)) (by simpa using hd)
      (by simp [Message.encodeMessage, DisconnectMessage.encodeMessage])
    exact h

/-- Claim C16. Under ProtocolV311 a DISCONNECT has no variable header: every
buffer that starts with 0xE0 and declares a non-zero remaining length, with
that many bytes present, is refused by `Decode(ProtocolV311, buf)` with
`CodeRefusedServerUnavailable`. -/
theorem Decode_DISCONNECT_V311_nonzero {P : Type} (cd : Codec P) (rest : List Byte)
    (L m : Nat) (hv : decodeVarInt rest = Outcome.ok (L, m)) (hpos : 0 < L)
    (hl : L ≤ rest.length - m) :
    Decode cd ProtocolVersion.ProtocolV311 (0xE0 :: rest) =
      Outcome.fail Error.CodeRefusedServerUnavailable := by
  refine Decode_variant_fail cd ProtocolVersion.ProtocolV311 0xE0 rest L m
    (Message.disconnect
      { properties := none, remLen := 0, mType := PacketType.DISCONNECT,
        version := ProtocolVersion.ProtocolV311, reasonCode := 0 })
    Error.CodeRefusedServerUnavailable (Or.inr (by decide)) hv hl rfl ?_
  simp [Message.setRemLen, Message.decodeMessage, DisconnectMessage.decodeMessage,
    Outcome.bind, hpos]

theorem Decode_DISCONNECT_V50_reason {P : Type} (cd : Codec P) :
    Decode cd ProtocolVersion.ProtocolV50 [0xE0, 0x01, 0x00] =
      Outcome.ok (Message.disconnect
        { properties := none, remLen := 1, mType := PacketType.DISCONNECT,
          version := ProtocolVersion.ProtocolV50, reasonCode := 0x00 }, 3) := by
  have h := Decode_intro cd ProtocolVersion.ProtocolV50 0xE0 [0x01, 0x00] 1 1
    (Message.disconnect
      { properties := none, remLen := 0, mType := PacketType.DISCONNECT,
        version := ProtocolVersion.ProtocolV50, reasonCode := 0 })
    (Message.disconnect
      { properties := none, remLen := 1, mType := PacketType.DISCONNECT,
        version := ProtocolVersion.ProtocolV50, reasonCode := 0x00 })
    (Or.inr (by decide)) (decodeVarInt_single 0x01 _ (by decide)) (by simp) rfl
    (by
      simp [Message.setRemLen, Message.decodeMessage, DisconnectMessage.decodeMessage,
        Outcome.bind])
  exact h

/-- Claim C17. `Decode(ProtocolV50, [0xE0, 0x01, 0x00])`, a DISCONNECT that
declares remaining length 1 and carries the single byte 0x00, does not fail
with `CodeMalformedPacket`: it returns a `DisconnectMessage` and the count
3. -/
theorem Decode_DISCONNECT_V50_one_byte {P : Type} (cd : Codec P) :
    (∃ m : DisconnectMessage P,
        Decode cd ProtocolVersion.ProtocolV50 [0xE0, 0x01, 0x00] =
          Outcome.ok (Message.disconnect m, 3)) ∧
      Decode cd ProtocolVersion.ProtocolV50 [0xE0, 0x01, 0x00] ≠
        Outcome.fail Error.CodeMalformedPacket := by
  refine ⟨⟨_, Decode_DISCONNECT_V50_reason cd⟩, ?_⟩
  rw [Decode_DISCONNECT_V50_reason cd]
  simp

/-- Claim C18. `Decode(ProtocolV50, [0xE0, 0x01, 0x00])`, a DISCONNECT with an
appended reason-code byte, decodes successfully under V50: it returns a
`DisconnectMessage` of type DISCONNECT holding the reason code 0x00 and
consumes all 3 bytes; the same buffer is rejected under V311, with
`CodeRefusedServerUnavailable`. -/
theorem Decode_DISCONNECT_reason_byte {P : Type} (cd : Codec P) :
    (∃ m : DisconnectMessage P,
        Decode cd ProtocolVersion.ProtocolV50 [0xE0, 0x01, 0x00] =
          Outcome.ok (Message.disconnect m, ([0xE0, 0x01, 0x00] : List Byte).length) ∧
        (Message.disconnect m).TypeOf = PacketType.DISCONNECT ∧ m.reasonCode = 0x00) ∧
      Decode cd ProtocolVersion.ProtocolV311 [0xE0, 0x01, 0x00] =
        Outcome.fail Error.CodeRefusedServerUnavailable := by
  refine ⟨⟨_, Decode_DISCONNECT_V50_reason cd, rfl, rfl⟩, ?_⟩
  refine Decode_variant_fail cd ProtocolVersion.ProtocolV311 0xE0 [0x01, 0x00] 1 1
    (Message.disconnect
      { properties := none, remLen := 0, mType := PacketType.DISCONNECT,
        version := ProtocolVersion.ProtocolV311, reasonCode := 0 })
    Error.CodeRefusedServerUnavailable (Or.inr (by decide))
    (decodeVarInt_single 0x01 _ (by decide)) (by simp) rfl ?_
  simp [Message.setRemLen, Message.decodeMessage, DisconnectMessage.decodeMessage,
    Outcome.bind]

theorem PacketType.code_ofCode (k : Nat) (hk : k < 16) :
    (PacketType.ofCode k).code = k := by
  interval_cases k <;> rfl

theorem firstByte_eq (b : Byte)
    (hf : b.val % 16 = DefaultFlags (PacketType.ofCode (b.val / 16))) :
    toByte ((PacketType.ofCode (b.val / 16)).code * 16 +
      DefaultFlags (PacketType.ofCode (b.val / 16))) = b := by
  have hb := b.isLt
  rw [PacketType.code_ofCode _ (by omega), ← hf]
  apply Fin.ext
  simp only [toByte]
  omega

theorem decodeTail_fields {P : Type} (cd : Codec P) (msg m : SubAckMessage P) (src : List Byte)
    (total n : Int) (e : Option Error) (h : decodeTail cd msg src total = some (m, n, e)) :
    m.remLen = msg.remLen ∧ m.version = msg.version ∧ m.mType = msg.mType := by
  unfold decodeTail at h
  simp only at h
  split at h
  · exact absurd h (by simp)
  · split at h
    · simp only [Option.some.injEq, Prod.mk.injEq] at h
      rw [← h.1]
      exact ⟨rfl, rfl, rfl⟩
    · simp only [Option.some.injEq, Prod.mk.injEq] at h
      rw [← h.1]
      exact ⟨rfl, rfl, rfl⟩

theorem decodeMessage_fields {P : Type} (cd : Codec P) (msg m : SubAckMessage P)
    (src : List Byte) (n : Int) (e : Option Error)
    (h : decodeMessage cd msg src = some (m, n, e)) :
    m.remLen = msg.remLen ∧ m.version = msg.version ∧ m.mType = msg.mType := by
  unfold decodeMessage at h
  simp only at h
  split at h
  · split at h
    · simp only [Option.some.injEq, Prod.mk.injEq] at h
      rw [← h.1]
      exact ⟨rfl, rfl, rfl⟩
    · have hf := decodeTail_fields cd _ m src _ n e h
      exact hf
  · have hf := decodeTail_fields cd _ m src _ n e h
    exact hf

theorem decodeMessage_V311_fresh_eq {P : Type} (cd : Codec P) (src : List Byte) (L : Nat)
    (h2 : 2 ≤ L) (hl : L ≤ src.length) :
    decodeMessage cd (newSubAckMessage P ProtocolVersion.ProtocolV311 L) src =
      match decodeCodes cd ProtocolVersion.ProtocolV311 PacketType.SUBACK ((2 : Nat) : Int) 0
          ((src.drop 2).take (L - 2)) [] with
      | (rc, some (n, e)) =>
        some ({ newSubAckMessage P ProtocolVersion.ProtocolV311 L with
          packetID := src.take 2, returnCodes := rc }, n, some e)
      | (rc, none) =>
        some ({ newSubAckMessage P ProtocolVersion.ProtocolV311 L with
          packetID := src.take 2, returnCodes := rc }, (L : Int), none) := by
  rw [decodeMessage_V311 cd (newSubAckMessage P ProtocolVersion.ProtocolV311 L) src rfl
    (Or.inl rfl) (by omega)]
  rw [decodeTail_eq cd _ src 2 h2 hl]
  rfl

theorem decodeMessage_V311_fresh_ok {P : Type} (cd : Codec P) (src : List Byte) (L : Nat)
    (h2 : 2 ≤ L) (hl : L ≤ src.length)
    (hall : ∀ q ∈ (src.drop 2).take (L - 2),
      codeAccepted cd ProtocolVersion.ProtocolV311 PacketType.SUBACK q = true) :
    decodeMessage cd (newSubAckMessage P ProtocolVersion.ProtocolV311 L) src =
      some ({ newSubAckMessage P ProtocolVersion.ProtocolV311 L with
        packetID := src.take 2, returnCodes := (src.drop 2).take (L - 2) }, (L : Int), none) := by
  rw [decodeMessage_V311_fresh_eq cd src L h2 hl, decodeCodes_all cd _ _ _ _ 0 [] hall]
  rfl

theorem decodeMessage_V311_fresh_inv {P : Type} (cd : Codec P) (src : List Byte) (L : Nat)
    (m : SubAckMessage P) (n : Int) (h2 : 2 ≤ L) (hl : L ≤ src.length)
    (h : decodeMessage cd (newSubAckMessage P ProtocolVersion.ProtocolV311 L) src =
      some (m, n, none)) :
    (∀ q ∈ (src.drop 2).take (L - 2),
      codeAccepted cd ProtocolVersion.ProtocolV311 PacketType.SUBACK q = true) ∧
      m = { newSubAckMessage P ProtocolVersion.ProtocolV311 L with
        packetID := src.take 2, returnCodes := (src.drop 2).take (L - 2) } ∧
      n = (L : Int) := by
  by_cases hall : ∀ q ∈ (src.drop 2).take (L - 2),
      codeAccepted cd ProtocolVersion.ProtocolV311 PacketType.SUBACK q = true
  · rw [decodeMessage_V311_fresh_ok cd src L h2 hl hall] at h
    simp only [Option.some.injEq, Prod.mk.injEq, and_true] at h
    exact ⟨hall, h.1.symm, h.2.symm⟩
  · obtain ⟨pre, q, post, heq, hpre, hq⟩ := exists_first_rejected cd _ _ _ hall
    rw [decodeMessage_V311_fresh_eq cd src L h2 hl, heq,
      decodeCodes_first_rejected cd _ _ _ pre q post 0 [] hpre hq] at h
    simp at h

theorem ack_variant_roundtrip {P : Type} (cd : Codec P) (m0 : AckMessage P)
    (hv : m0.version = ProtocolVersion.ProtocolV311) (hp : m0.packetID = [])
    (src : List Byte) (L : Nat) (msg : Message P)
    (hd : ((Message.ack m0).setRemLen L).decodeMessage cd src = Outcome.ok (msg, L))
    (hid : ∀ m, msg = Message.ack m → m.packetID ≠ [0, 0]) :
    msg.TypeOf = m0.mType ∧ msg.size cd = Outcome.ok L ∧
      (∀ d : List Byte, L ≤ d.length →
        msg.encodeMessage cd d = Outcome.ok (src.take L ++ d.drop L, L)) ∧
      ∀ src1 : List Byte, L ≤ src1.length → src1.take L = src.take L →
        ∃ msg1, ((Message.ack m0).setRemLen L).decodeMessage cd src1 = Outcome.ok (msg1, L) := by
  have hv50 : ¬ m0.version = ProtocolVersion.ProtocolV50 := by rw [hv]; decide
  simp only [Message.setRemLen, Message.decodeMessage, AckMessage.decodeMessage, hv50,
    if_false, hp] at hd
  by_cases hs : src.length < 2
  · simp [hs, Outcome.bind] at hd
  · have hs2 : 2 ≤ src.length := by omega
    simp only [hs, if_false, Outcome.bind, decodePacketID_fresh src hs2, Outcome.ok.injEq,
      Prod.mk.injEq] at hd
    obtain ⟨hmsg, hL⟩ := hd
    subst hL
    subst hmsg
    have hlen : (src.take 2).length = 2 := by
      simp only [List.length_take]; omega
    refine ⟨rfl, ?_, ?_, ?_⟩
    · simp [Message.size, hv50]
    · intro d hdl
      have hne : ¬ ((src.take 2).length = 0 ∨ src.take 2 = [0, 0]) := by
        rintro (h | h)
        · omega
        · exact hid _ rfl h
      have hmin : min d.length 2 = 2 := by omega
      simp only [Message.encodeMessage, AckMessage.encodeMessage, hv50, if_false]
      rw [if_neg hne]
      simp only [encodePacketID, goCopy, hlen, hmin, List.take_take, Nat.min_self]
    · intro src1 hl1 _
      refine ⟨Message.ack { m0 with packetID := src1.take 2, remLen := 2 }, ?_⟩
      simp only [Message.setRemLen, Message.decodeMessage, AckMessage.decodeMessage, hv50,
        if_false, hp]
      have hs1 : ¬ src1.length < 2 := by omega
      simp only [hs1, if_false, Outcome.bind, decodePacketID_fresh src1 (by omega)]

theorem disconnect_variant_roundtrip {P : Type} (cd : Codec P) (m0 : DisconnectMessage P)
    (hv : m0.version = ProtocolVersion.ProtocolV311) (src : List Byte) (L : Nat)
    (msg : Message P)
    (hd : ((Message.disconnect m0).setRemLen L).decodeMessage cd src = Outcome.ok (msg, L)) :
    msg.TypeOf = m0.mType ∧ msg.size cd = Outcome.ok L ∧
      (∀ d : List Byte, L ≤ d.length →
        msg.encodeMessage cd d = Outcome.ok (src.take L ++ d.drop L, L)) ∧
      ∀ src1 : List Byte, L ≤ src1.length → src1.take L = src.take L →
        ∃ msg1, ((Message.disconnect m0).setRemLen L).decodeMessage cd src1 =
          Outcome.ok (msg1, L) := by
  have hv50 : ¬ m0.version = ProtocolVersion.ProtocolV50 := by rw [hv]; decide
  simp only [Message.setRemLen, Message.decodeMessage, DisconnectMessage.decodeMessage, hv50,
    if_false] at hd
  by_cases hpos : 0 < L
  · simp [hpos, Outcome.bind] at hd
  · have hL : L = 0 := by omega
    subst hL
    simp only [Nat.lt_irrefl, if_false, Outcome.bind, Outcome.ok.injEq, Prod.mk.injEq,
      and_true] at hd
    subst hd
    refine ⟨rfl, ?_, ?_, ?_⟩
    · simp [Message.size, hv50]
    · intro d _
      simp [Message.encodeMessage, DisconnectMessage.encodeMessage, hv50]
    · intro src1 _ _
      refine ⟨Message.disconnect { m0 with remLen := 0 }, ?_⟩
      simp only [Message.setRemLen, Message.decodeMessage, DisconnectMessage.decodeMessage,
        hv50, if_false, Nat.lt_irrefl, Outcome.bind]

theorem subAck_variant_roundtrip {P : Type} (cd : Codec P) (src : List Byte) (L : Nat)
    (msg : Message P) (hl : L ≤ src.length)
    (hd : ((Message.subAck (newSubAckMessage P ProtocolVersion.ProtocolV311 0)).setRemLen
      L).decodeMessage cd src = Outcome.ok (msg, L))
    (hsub : ∀ m, msg = Message.subAck m → 2 ≤ m.remLen) :
    msg.TypeOf = PacketType.SUBACK ∧ msg.size cd = Outcome.ok L ∧
      (∀ d : List Byte, L ≤ d.length →
        msg.encodeMessage cd d = Outcome.ok (src.take L ++ d.drop L, L)) ∧
      ∀ src1 : List Byte, L ≤ src1.length → src1.take L = src.take L →
        ∃ msg1, ((Message.subAck (newSubAckMessage P ProtocolVersion.ProtocolV311 0)).setRemLen
          L).decodeMessage cd src1 = Outcome.ok (msg1, L) := by
  have hfresh : ({ newSubAckMessage P ProtocolVersion.ProtocolV311 0 with remLen := L } :
      SubAckMessage P) = newSubAckMessage P ProtocolVersion.ProtocolV311 L := rfl
  simp only [Message.setRemLen, Message.decodeMessage, hfresh] at hd ⊢
  cases hdm : decodeMessage cd (newSubAckMessage P ProtocolVersion.ProtocolV311 L) src with
  | none => rw [hdm] at hd; simp at hd
  | some r =>
    obtain ⟨m1, n, e⟩ := r
    rw [hdm] at hd
    cases e with
    | some e => simp at hd
    | none =>
      simp only [Outcome.ok.injEq, Prod.mk.injEq] at hd
      obtain ⟨hmsg, _⟩ := hd
      have hrem := (decodeMessage_fields cd _ m1 src n none hdm).1
      have h2 : 2 ≤ L := by
        have := hsub m1 hmsg.symm
        rw [hrem] at this
        exact this
      obtain ⟨hall, hm1, _⟩ := decodeMessage_V311_fresh_inv cd src L m1 n h2 hl hdm
      subst hmsg
      subst hm1
      have hclen : ((src.drop 2).take (L - 2)).length = L - 2 := by
        simp only [List.length_take, List.length_drop]; omega
      have hplen : (src.take 2).length = 2 := by
        simp only [List.length_take]; omega
      have hjoin : src.take 2 ++ (src.drop 2).take (L - 2) = src.take L := by
        have : L = 2 + (L - 2) := by omega
        conv_rhs => rw [this, List.take_add]
      refine ⟨rfl, ?_, ?_, ?_⟩
      · simp only [Message.size, size, newSubAckMessage, reduceCtorEq, if_false, hclen,
          Outcome.ok.injEq]
        omega
      · intro d hdl
        have henc := encodeMessage_V311 cd
          ({ newSubAckMessage P ProtocolVersion.ProtocolV311 L with
            packetID := src.take 2, returnCodes := (src.drop 2).take (L - 2) } :
            SubAckMessage P) d rfl hplen (by simp only [hclen]; omega)
        simp only [Message.encodeMessage, henc, hclen, Outcome.ok.injEq, Prod.mk.injEq]
        constructor
        · rw [hjoin]
          congr 2
          omega
        · omega
      · intro src1 hl1 htake
        have hcodes : (src1.drop 2).take (L - 2) = (src.drop 2).take (L - 2) := by
          rw [← List.drop_take, ← List.drop_take, htake]
        have hall1 : ∀ q ∈ (src1.drop 2).take (L - 2),
            codeAccepted cd ProtocolVersion.ProtocolV311 PacketType.SUBACK q = true := by
          rw [hcodes]; exact hall
        rw [decodeMessage_V311_fresh_ok cd src1 L h2 hl1 hall1]
        refine ⟨Message.subAck
          { newSubAckMessage P ProtocolVersion.ProtocolV311 L with
            packetID := src1.take 2, returnCodes := (src1.drop 2).take (L - 2) }, ?_⟩
        simp

theorem variant_roundtrip {P : Type} (cd : Codec P) (t : PacketType) (msg0 msg : Message P)
    (src : List Byte) (L : Nat)
    (hn : NewMessage P ProtocolVersion.ProtocolV311 t = Outcome.ok msg0)
    (hl : L ≤ src.length)
    (hd : (msg0.setRemLen L).decodeMessage cd src = Outcome.ok (msg, L))
    (hid : ∀ m, msg = Message.ack m → m.packetID ≠ [0, 0])
    (hsub : ∀ m, msg = Message.subAck m → 2 ≤ m.remLen) :
    t ≠ PacketType.PUBLISH ∧ msg.TypeOf = t ∧ msg.size cd = Outcome.ok L ∧
      (∀ d : List Byte, L ≤ d.length →
        msg.encodeMessage cd d = Outcome.ok (src.take L ++ d.drop L, L)) ∧
      ∀ src1 : List Byte, L ≤ src1.length → src1.take L = src.take L →
        ∃ msg1, (msg0.setRemLen L).decodeMessage cd src1 = Outcome.ok (msg1, L) := by
  cases t <;> simp only [NewMessage, reduceCtorEq, if_false, Outcome.ok.injEq] at hn
  case PUBACK =>
    subst hn
    exact ⟨by decide, ack_variant_roundtrip cd _ rfl rfl src L msg hd hid⟩
  case PUBREC =>
    subst hn
    exact ⟨by decide, ack_variant_roundtrip cd _ rfl rfl src L msg hd hid⟩
  case PUBREL =>
    subst hn
    exact ⟨by decide, ack_variant_roundtrip cd _ rfl rfl src L msg hd hid⟩
  case PUBCOMP =>
    subst hn
    exact ⟨by decide, ack_variant_roundtrip cd _ rfl rfl src L msg hd hid⟩
  case DISCONNECT =>
    subst hn
    exact ⟨by decide, disconnect_variant_roundtrip cd _ rfl src L msg hd⟩
  case SUBACK =>
    subst hn
    exact ⟨by decide, subAck_variant_roundtrip cd src L msg hl hd hsub⟩

/-- The round trip of the dispatch layer in the variants carried here.  For
every buffer `b` of an Ack family, DISCONNECT or SUBACK packet that
`Decode(ProtocolV311, b)` accepts with count `n`, whose remaining length is
written in the fewest bytes, whose packet ID (Ack family) is not zero and
whose remaining length (SUBACK) is at least 2: `Encode` of the decoded message
into any `dst` of at least `n` bytes returns `n`, `dst[0:n]` equals `b[0:n]`,
and `Decode(ProtocolV311, dst)` succeeds again consuming `n` bytes. -/
theorem Decode_Encode_Decode {P : Type} (cd : Codec P) (b dst : List Byte) (msg : Message P)
    (n : Nat) (hdec : Decode cd ProtocolVersion.ProtocolV311 b = Outcome.ok (msg, n))
    (hmin : lengthIsMinimal b = true)
    (hid : ∀ m, msg = Message.ack m → m.packetID ≠ [0, 0])
    (hsub : ∀ m, msg = Message.subAck m → 2 ≤ m.remLen)
    (hdst : n ≤ dst.length) :
    ∃ (dst1 : List Byte) (msg1 : Message P),
      Encode cd msg dst = Outcome.ok (dst1, n) ∧ dst1.take n = b.take n ∧
        Decode cd ProtocolVersion.ProtocolV311 dst1 = Outcome.ok (msg1, n) := by
  obtain ⟨b0, rest, L, m, msg0, hb, hf, hvi, hl, hnm, hdm, hn⟩ :=
    Decode_inv cd ProtocolVersion.ProtocolV311 b msg n hdec
  subst hb
  subst hn
  obtain ⟨hm0, hmle, hpre⟩ := decodeVarInt_consumed rest L m hvi
  have henc : encodeVarInt L = some (rest.take m) := by
    simp only [lengthIsMinimal, List.drop_succ_cons, List.drop_zero, hvi,
      decide_eq_true_eq] at hmin
    exact hmin
  have hlb : (rest.take m).length = m := by
    simp only [List.length_take]; omega
  have hsl : L ≤ (rest.drop m).length := by
    simp only [List.length_drop]; exact hl
  obtain ⟨hnp, hty, hsz, hencm, hred⟩ :=
    variant_roundtrip cd _ msg0 msg (rest.drop m) L hnm hsl hdm hid hsub
  have hflags : b0.val % 16 = DefaultFlags (PacketType.ofCode (b0.val / 16)) := by
    rcases hf with hf | hf
    · exact absurd hf hnp
    · exact hf
  have hdl : L ≤ (dst.drop (1 + (rest.take m).length)).length := by
    simp only [List.length_drop, hlb]; omega
  have hE := Encode_intro cd msg dst L (rest.take m)
    ((rest.drop m).take L ++ (dst.drop (1 + (rest.take m).length)).drop L) L hsz henc
    (by rw [hlb]; omega) (hencm _ hdl)
  rw [hty, firstByte_eq b0 hflags, hlb] at hE
  have hE1 : Encode cd msg dst = Outcome.ok
      (b0 :: (rest.take m ++ ((rest.drop m).take L ++ (dst.drop (1 + m)).drop L)),
        1 + m + L) := hE
  have hpl : ((rest.drop m).take L).length = L := by
    simp only [List.length_take, List.length_drop]; omega
  have hdropm : (rest.take m ++ ((rest.drop m).take L ++ (dst.drop (1 + m)).drop L)).drop m =
      (rest.drop m).take L ++ (dst.drop (1 + m)).drop L := List.drop_left' hlb
  obtain ⟨msg1, hmsg1⟩ := hred
    ((rest.take m ++ ((rest.drop m).take L ++ (dst.drop (1 + m)).drop L)).drop m)
    (by
      rw [hdropm]
      simp only [List.length_append, hpl]
      omega)
    (by rw [hdropm, List.take_left' hpl])
  refine ⟨_, msg1, hE1, ?_, ?_⟩
  · -- the first n bytes are those of b
    have h2 : 1 + m + L = (m + L) + 1 := by omega
    rw [h2, List.take_succ_cons, List.take_succ_cons, List.take_add, List.take_add,
      List.take_left' hlb, hdropm, List.take_left' hpl]
  · -- decoding the written buffer
    exact Decode_intro cd ProtocolVersion.ProtocolV311 b0 _ L m msg0 msg1 (Or.inr hflags)
      (hpre _) (by
        simp only [List.length_append, hlb, hpl]
        omega) hnm hmsg1

/-- Claim C11. `Decode(ProtocolV311, [0x90, 0x00])`, a SUBACK that declares the
remaining length 0, is accepted with the count 2: `decodeMessage` copies no
byte into the packet ID, which stays `0x00 0x00`, and finds no return code.
`Encode` of the decoded message into any `dst` of at least 4 bytes returns 4
and writes `[0x90, 0x02, 0x00, 0x00]`: neither the count nor the bytes are
those of the input. -/
theorem Decode_Encode_SUBACK_zero_length {P : Type} (cd : Codec P) (dst : List Byte)
    (hd : 4 ≤ dst.length) :
    decodeMessage cd (newSubAckMessage P ProtocolVersion.ProtocolV311 0) [] =
        some ({ newSubAckMessage P ProtocolVersion.ProtocolV311 0 with packetID := [0, 0] },
          0, none) ∧
      Decode cd ProtocolVersion.ProtocolV311 [0x90, 0x00] =
        Outcome.ok (Message.subAck
          { newSubAckMessage P ProtocolVersion.ProtocolV311 0 with packetID := [0, 0] }, 2) ∧
      encodeMessage cd
          { newSubAckMessage P ProtocolVersion.ProtocolV311 0 with packetID := [0, 0] }
          (dst.drop 2) =
        some ([0x00, 0x00] ++ dst.drop 4, 2, none) ∧
      Encode cd (Message.subAck
          { newSubAckMessage P ProtocolVersion.ProtocolV311 0 with packetID := [0, 0] }) dst =
        Outcome.ok ([0x90, 0x02, 0x00, 0x00] ++ dst.drop 4, 4) := by
  have henc : encodeMessage cd
      { newSubAckMessage P ProtocolVersion.ProtocolV311 0 with packetID := [0, 0] }
      (dst.drop 2) = some ([0x00, 0x00] ++ dst.drop 4, 2, none) := by
    have h := encodeMessage_V311 cd
      { newSubAckMessage P ProtocolVersion.ProtocolV311 0 with packetID := [0, 0] }
      (dst.drop 2) rfl rfl (by
        simp only [newSubAckMessage, List.length_nil, List.length_drop]
        omega)
    simp only [newSubAckMessage, List.length_nil, List.append_nil, Nat.add_zero,
      List.drop_drop] at h
    exact h
  refine ⟨rfl, rfl, henc, ?_⟩
  have h := Encode_intro cd
    (Message.subAck
      { newSubAckMessage P ProtocolVersion.ProtocolV311 0 with packetID := [0, 0] })
    dst 2 [0x02] ([0x00, 0x00] ++ dst.drop 4) 2 rfl
    (encodeVarInt_small 2 (by decide)) (by simpa using hd)
    (by
      simp only [Message.encodeMessage, List.length_cons, List.length_nil]
      rw [henc]
      rfl)
  exact h

theorem decodeTail_success {P : Type} (cd : Codec P) (msg m : SubAckMessage P) (src : List Byte)
    (total n : Int) (h : decodeTail cd msg src total = some (m, n, none)) :
    n = (msg.remLen : Int) := by
  unfold decodeTail at h
  simp only at h
  split at h
  · exact absurd h (by simp)
  · split at h
    · simp at h
    · simp only [Option.some.injEq, Prod.mk.injEq, and_true] at h
      omega

/-- Claim C19. Whenever `decodeMessage` returns a nil error, in either protocol
version and whatever the properties block consumed, the count it returns is
the declared remaining length `remLen`. -/
theorem decodeMessage_success_count {P : Type} (cd : Codec P) (msg m : SubAckMessage P)
    (src : List Byte) (n : Int) (h : decodeMessage cd msg src = some (m, n, none)) :
    n = (msg.remLen : Int) := by
  unfold decodeMessage at h
  simp only at h
  split at h
  · split at h
    · simp at h
    · have hn := decodeTail_success cd _ m src _ n h
      exact hn
  · have hn := decodeTail_success cd _ m src _ n h
    exact hn

/-- Claim C20. `AddReturnCodes` is not atomic: when it returns
`ErrInvalidReturnCode`, `ret` splits at the first code the loop rejects, the
codes before it have been appended to the return codes held before the call,
the rejected code and those after it have not, and no other field of the
message has changed. -/
theorem AddReturnCodes_not_atomic {P : Type} (cd : Codec P) (msg : SubAckMessage P)
    (ret : List ReasonCode)
    (h : (AddReturnCodes cd msg ret).2 = some Error.ErrInvalidReturnCode) :
    ∃ pre q post, ret = pre ++ q :: post ∧
      (∀ x ∈ pre, codeAccepted cd msg.version msg.mType x = true) ∧
      codeAccepted cd msg.version msg.mType q = false ∧
      (AddReturnCodes cd msg ret).1 = { msg with returnCodes := msg.returnCodes ++ pre } := by
  by_cases hall : ∀ q ∈ ret, codeAccepted cd msg.version msg.mType q = true
  · rw [AddReturnCodes_all cd ret msg hall] at h
    simp at h
  · obtain ⟨pre, q, post, heq, hpre, hq⟩ := exists_first_rejected cd _ _ ret hall
    refine ⟨pre, q, post, heq, hpre, hq, ?_⟩
    rw [heq, AddReturnCodes_first_rejected cd pre q post msg hpre hq]

/-! ## The claims evaluated on concrete inputs -/

theorem decodeMessage_V311_fresh_witness :
    ((∃ m n, decodeMessage sampleCodec (newSubAckMessage Unit ProtocolVersion.ProtocolV311 4)
          [0, 7, 1, 0x80, 9] = some (m, n, none)) ↔
        ∀ b ∈ (([0, 7, 1, 0x80, 9] : List Byte).drop 2).take (4 - 2),
          b = 0 ∨ b = 1 ∨ b = 2 ∨ b = 0x80) ∧
      ∀ m n, decodeMessage sampleCodec (newSubAckMessage Unit ProtocolVersion.ProtocolV311 4)
          [0, 7, 1, 0x80, 9] = some (m, n, none) →
        n = ((4 : Nat) : Int) ∧ m.packetID = ([0, 7, 1, 0x80, 9] : List Byte).take 2 ∧
          ReturnCodes m = (([0, 7, 1, 0x80, 9] : List Byte).drop 2).take (4 - 2) :=
  decodeMessage_V311_fresh sampleCodec [0, 7, 1, 0x80, 9] 4 (by decide) (by decide)

theorem decodeMessage_rejected_offset_witness :
    (∃ m, decodeMessage sampleCodec (newSubAckMessage Unit ProtocolVersion.ProtocolV311 4)
        [0, 7, 1, 3] = some (m, 3, some Error.CodeRefusedServerUnavailable)) ∧
      (ProtocolVersion.ProtocolV311 = ProtocolVersion.ProtocolV311 →
        ((([] : List Byte).length = 0) ∨ (([] : List Byte).length = 2)) →
        headerLen sampleCodec (newSubAckMessage Unit ProtocolVersion.ProtocolV311 4)
            [0, 7, 1, 3] = 2 ∧
          rejectError sampleCodec ProtocolVersion.ProtocolV311 PacketType.SUBACK 3 =
            Error.CodeRefusedServerUnavailable) :=
  decodeMessage_rejected_offset sampleCodec
    (newSubAckMessage Unit ProtocolVersion.ProtocolV311 4) [0, 7, 1, 3] 1 3 (by decide)
    (by intro h; exact absurd h (by decide)) (by decide)
    (by
      intro j hj x hx
      have hj0 : j = 0 := by omega
      subst hj0
      have hx1 : x = 1 := by
        have : ([0, 7, 1, 3] : List Byte)[2]? = some x := hx
        simpa using this.symm
      subst hx1
      decide)
    (by decide) (by decide)

theorem decodeMessage_V50_stops_at_valid_code_witness :
    sampleCodec.IsValidForType 0x83 PacketType.SUBACK = true ∧
      sampleCodec.IsValidForType 0x03 PacketType.SUBACK = false ∧
      headerLen sampleCodec (newSubAckMessage Unit ProtocolVersion.ProtocolV50 5)
        [0x00, 0x07, 0x00, 0x83, 0x03] = 3 ∧
      ∃ m, decodeMessage sampleCodec (newSubAckMessage Unit ProtocolVersion.ProtocolV50 5)
          [0x00, 0x07, 0x00, 0x83, 0x03] =
        some (m, 3, some Error.CodeRefusedServerUnavailable) :=
  ⟨by decide, by decide, rfl,
    decodeMessage_V50_stops_at_valid_code sampleCodec
      (newSubAckMessage Unit ProtocolVersion.ProtocolV50 5) [0x00, 0x07, 0x00, 0x83, 0x03] 0 0x83
      rfl (by decide) rfl (by decide) (fun j hj => absurd hj (Nat.not_lt_zero j)) rfl
      (by decide) (by decide)⟩

theorem V50_accepts_iff_table_and_qos_witness :
    (sampleCodec.IsValidForType 0x83 PacketType.SUBACK = true ∧
      (AddReturnCodes sampleCodec (newSubAckMessage Unit ProtocolVersion.ProtocolV50 4) [0x83]).2 =
        some Error.ErrInvalidReturnCode ∧
      decodeMessage sampleCodec (newSubAckMessage Unit ProtocolVersion.ProtocolV50 4)
          [0, 7, 0, 0x83] =
        some ({ newSubAckMessage Unit ProtocolVersion.ProtocolV50 4 with packetID := [0, 7] },
          3, some Error.CodeRefusedServerUnavailable)) ∧
      (((AddReturnCodes sampleCodec (newSubAckMessage Unit ProtocolVersion.ProtocolV50 4)
            [0x83]).2 = none ↔
          (sampleCodec.IsValidForType 0x83 PacketType.SUBACK = true ∧
            IsValidFull 0x83 = true)) ∧
        ((∃ m n, decodeMessage sampleCodec (newSubAckMessage Unit ProtocolVersion.ProtocolV50 4)
            [0, 7, 0, 0x83] = some (m, n, none)) ↔
          (sampleCodec.IsValidForType 0x83 PacketType.SUBACK = true ∧
            IsValidFull 0x83 = true))) :=
  ⟨⟨by decide, by decide, rfl⟩,
    V50_accepts_iff_table_and_qos sampleCodec
      (newSubAckMessage Unit ProtocolVersion.ProtocolV50 4) [0, 7, 0, 0x83] 0x83 rfl (by decide)
      (by decide) (by decide) (by decide)⟩

theorem AddReturnCodes_V311_witness :
    ((AddReturnCodes sampleCodec (newSubAckMessage Unit ProtocolVersion.ProtocolV311 0)
          [1, 0x80]).2 = some Error.ErrInvalidReturnCode ↔
        ∃ c ∈ ([1, 0x80] : List ReasonCode), ¬ (c = 0 ∨ c = 1 ∨ c = 2 ∨ c = 0x80)) ∧
      ((AddReturnCodes sampleCodec (newSubAckMessage Unit ProtocolVersion.ProtocolV311 0)
          [1, 0x80]).2 = none ↔
        ∀ c ∈ ([1, 0x80] : List ReasonCode), c = 0 ∨ c = 1 ∨ c = 2 ∨ c = 0x80) ∧
      ((AddReturnCodes sampleCodec (newSubAckMessage Unit ProtocolVersion.ProtocolV311 0)
          [1, 0x80]).2 = none →
        ReturnCodes (AddReturnCodes sampleCodec
          (newSubAckMessage Unit ProtocolVersion.ProtocolV311 0) [1, 0x80]).1 =
          ReturnCodes (newSubAckMessage Unit ProtocolVersion.ProtocolV311 0) ++ [1, 0x80]) ∧
      (∀ c, (AddReturnCode sampleCodec (newSubAckMessage Unit ProtocolVersion.ProtocolV311 0)
          c).2 = none →
        ReturnCodes (AddReturnCode sampleCodec
          (newSubAckMessage Unit ProtocolVersion.ProtocolV311 0) c).1 =
          ReturnCodes (newSubAckMessage Unit ProtocolVersion.ProtocolV311 0) ++ [c]) ∧
      ((∀ c ∈ ([1, 0x80] : List ReasonCode), c = 0 ∨ c = 1 ∨ c = 2 ∨ c = 0x80) →
        AddReturnCodes sampleCodec (newSubAckMessage Unit ProtocolVersion.ProtocolV311 0)
            [1, 0x80] =
          ({ newSubAckMessage Unit ProtocolVersion.ProtocolV311 0 with
            returnCodes :=
              (newSubAckMessage Unit ProtocolVersion.ProtocolV311 0).returnCodes ++
                [1, 0x80] }, none)) ∧
      (∀ c, (c = 0 ∨ c = 1 ∨ c = 2 ∨ c = 0x80) →
        AddReturnCode sampleCodec (newSubAckMessage Unit ProtocolVersion.ProtocolV311 0) c =
          ({ newSubAckMessage Unit ProtocolVersion.ProtocolV311 0 with
            returnCodes :=
              (newSubAckMessage Unit ProtocolVersion.ProtocolV311 0).returnCodes ++ [c] },
            none)) ∧
      ∀ c, ¬ (c = 0 ∨ c = 1 ∨ c = 2 ∨ c = 0x80) →
        AddReturnCode sampleCodec (newSubAckMessage Unit ProtocolVersion.ProtocolV311 0) c =
          (newSubAckMessage Unit ProtocolVersion.ProtocolV311 0,
            some Error.ErrInvalidReturnCode) :=
  AddReturnCodes_V311 sampleCodec (newSubAckMessage Unit ProtocolVersion.ProtocolV311 0)
    [1, 0x80] rfl

theorem encodeMessage_packetID_unset_witness :
    encodeMessage sampleCodec
        { newSubAckMessage Unit ProtocolVersion.ProtocolV50 0 with returnCodes := [1, 2] }
        [9, 9, 9, 9, 9] =
      some ([9, 9, 9, 9, 9], 0, some Error.ErrPackedIDZero) :=
  encodeMessage_packetID_unset sampleCodec
    { newSubAckMessage Unit ProtocolVersion.ProtocolV50 0 with returnCodes := [1, 2] }
    [9, 9, 9, 9, 9] rfl

theorem encodeMessage_packetID_zero_witness :
    encodeMessage sampleCodec
        (SetPacketID (newSubAckMessage Unit ProtocolVersion.ProtocolV311 0) 0) [9, 9, 9] =
      some ([0, 0, 9], 2, none) :=
  encodeMessage_packetID_zero sampleCodec (newSubAckMessage Unit ProtocolVersion.ProtocolV311 0)
    [9, 9, 9] rfl (Or.inl rfl) (by decide)

theorem encodeMessage_short_buffer_witness :
    (∀ (d : List Byte) (n : Int) (e : Error),
        encodeMessage sampleCodec
            { SetPacketID (newSubAckMessage Unit ProtocolVersion.ProtocolV311 0) 7 with
              returnCodes := [1] } [9, 9] = some (d, n, some e) →
          ProtocolVersion.ProtocolV311 = ProtocolVersion.ProtocolV50 ∧
            (sampleCodec.encodeProperties none
              ((encodePacketID [0, 7] [9, 9]).1.drop (encodePacketID [0, 7] [9, 9]).2)).2.2 =
              some e) ∧
      (ProtocolVersion.ProtocolV311 = ProtocolVersion.ProtocolV311 →
        (([1] : List ReasonCode) = [] →
            encodeMessage sampleCodec
                { SetPacketID (newSubAckMessage Unit ProtocolVersion.ProtocolV311 0) 7 with
                  returnCodes := [1] } [9, 9] =
              some (([0, 7] : List Byte).take 2, ((2 : Nat) : Int), none)) ∧
          (([1] : List ReasonCode) ≠ [] →
            encodeMessage sampleCodec
                { SetPacketID (newSubAckMessage Unit ProtocolVersion.ProtocolV311 0) 7 with
                  returnCodes := [1] } [9, 9] = none)) :=
  encodeMessage_short_buffer sampleCodec
    { SetPacketID (newSubAckMessage Unit ProtocolVersion.ProtocolV311 0) 7 with
      returnCodes := [1] } [9, 9] rfl (by decide)

theorem decodeMessage_short_remLen_witness :
    decodeMessage sampleCodec (newSubAckMessage Unit ProtocolVersion.ProtocolV311 0) [0, 1] =
        none ∧
      decodeMessage sampleCodec (newSubAckMessage Unit ProtocolVersion.ProtocolV311 1) [0, 1] =
        none :=
  ⟨decodeMessage_short_remLen sampleCodec (newSubAckMessage Unit ProtocolVersion.ProtocolV311 0)
      [0, 1] rfl (Or.inl rfl) (by decide) (by decide),
    decodeMessage_short_remLen sampleCodec (newSubAckMessage Unit ProtocolVersion.ProtocolV311 1)
      [0, 1] rfl (Or.inl rfl) (by decide) (by decide)⟩

theorem roundtrip_V311_witness :
    ∃ (dst1 : List Byte) (n : Nat) (m : SubAckMessage Unit),
      encodeMessage sampleCodec
          { SetPacketID (newSubAckMessage Unit ProtocolVersion.ProtocolV311 0) 7 with
            returnCodes := [1, 0x80] } [9, 9, 9, 9, 9] = some (dst1, (n : Int), none) ∧
        (n : Int) = size sampleCodec
          { SetPacketID (newSubAckMessage Unit ProtocolVersion.ProtocolV311 0) 7 with
            returnCodes := [1, 0x80] } ∧
        decodeMessage sampleCodec (newSubAckMessage Unit ProtocolVersion.ProtocolV311 n)
            (dst1.take n) = some (m, (n : Int), none) ∧
        m.packetID = [0, 7] ∧ ReturnCodes m = [1, 0x80] :=
  roundtrip_V311 sampleCodec
    { SetPacketID (newSubAckMessage Unit ProtocolVersion.ProtocolV311 0) 7 with
      returnCodes := [1, 0x80] } [9, 9, 9, 9, 9] rfl rfl
    (by
      intro c hc
      rcases List.mem_cons.mp hc with rfl | hc
      · decide
      · rcases List.mem_cons.mp hc with rfl | hc
        · decide
        · exact absurd hc (List.not_mem_nil c))
    (by decide)

/-- The Variable-Length Integer Engine reads a remaining length written in more
bytes than needed: `Decode(ProtocolV311, b)` accepts the PUBACK
`[0x40, 0x82, 0x00, 0x00, 0x07]`, whose remaining length 2 is written in two
bytes, with count 5, and `Encode` of the decoded message returns 4. -/
theorem Decode_nonminimal_length_reencoded :
    Decode sampleCodec ProtocolVersion.ProtocolV311 [0x40, 0x82, 0x00, 0x00, 0x07] =
        Outcome.ok (Message.ack
          { packetID := [0, 7], properties := none, remLen := 2, mType := PacketType.PUBACK,
            version := ProtocolVersion.ProtocolV311, reasonCode := 0 }, 5) ∧
      Encode sampleCodec (Message.ack
          { packetID := [0, 7], properties := none, remLen := 2, mType := PacketType.PUBACK,
            version := ProtocolVersion.ProtocolV311, reasonCode := 0 })
          [0, 0, 0, 0, 0, 0, 0, 0] =
        Outcome.ok ([0x40, 0x02, 0x00, 0x07, 0, 0, 0, 0], 4) :=
  ⟨rfl, rfl⟩

theorem Decode_Encode_SUBACK_zero_length_witness :
    decodeMessage sampleCodec (newSubAckMessage Unit ProtocolVersion.ProtocolV311 0) [] =
        some ({ newSubAckMessage Unit ProtocolVersion.ProtocolV311 0 with packetID := [0, 0] },
          0, none) ∧
      Decode sampleCodec ProtocolVersion.ProtocolV311 [0x90, 0x00] =
        Outcome.ok (Message.subAck
          { newSubAckMessage Unit ProtocolVersion.ProtocolV311 0 with packetID := [0, 0] }, 2) ∧
      encodeMessage sampleCodec
          { newSubAckMessage Unit ProtocolVersion.ProtocolV311 0 with packetID := [0, 0] }
          (([9, 9, 9, 9, 9, 9] : List Byte).drop 2) =
        some ([0x00, 0x00] ++ ([9, 9, 9, 9, 9, 9] : List Byte).drop 4, 2, none) ∧
      Encode sampleCodec (Message.subAck
          { newSubAckMessage Unit ProtocolVersion.ProtocolV311 0 with packetID := [0, 0] })
          [9, 9, 9, 9, 9, 9] =
        Outcome.ok ([0x90, 0x02, 0x00, 0x00] ++ ([9, 9, 9, 9, 9, 9] : List Byte).drop 4, 4) :=
  Decode_Encode_SUBACK_zero_length sampleCodec [9, 9, 9, 9, 9, 9] (by decide)

theorem Decode_Encode_Decode_witness :
    (∃ (dst1 : List Byte) (msg1 : Message Unit),
      Encode sampleCodec (Message.ack
          { packetID := [0, 7], properties := none, remLen := 2, mType := PacketType.PUBACK,
            version := ProtocolVersion.ProtocolV311, reasonCode := 0 })
          [9, 9, 9, 9, 9, 9] = Outcome.ok (dst1, 4) ∧
        dst1.take 4 = ([0x40, 0x02, 0x00, 0x07] : List Byte).take 4 ∧
        Decode sampleCodec ProtocolVersion.ProtocolV311 dst1 = Outcome.ok (msg1, 4)) ∧
      ∃ (dst1 : List Byte) (msg1 : Message Unit),
        Encode sampleCodec (Message.disconnect
            { properties := none, remLen := 0, mType := PacketType.DISCONNECT,
              version := ProtocolVersion.ProtocolV311, reasonCode := 0 })
            [9, 9, 9, 9, 9, 9] = Outcome.ok (dst1, 2) ∧
          dst1.take 2 = ([0xE0, 0x00] : List Byte).take 2 ∧
          Decode sampleCodec ProtocolVersion.ProtocolV311 dst1 = Outcome.ok (msg1, 2) :=
  ⟨Decode_Encode_Decode sampleCodec [0x40, 0x02, 0x00, 0x07] [9, 9, 9, 9, 9, 9]
      (Message.ack
        { packetID := [0, 7], properties := none, remLen := 2, mType := PacketType.PUBACK,
          version := ProtocolVersion.ProtocolV311, reasonCode := 0 })
      4 rfl rfl
      (by
        intro m h
        cases h
        decide)
      (by
        intro m h
        cases h)
      (by decide),
    Decode_Encode_Decode sampleCodec [0xE0, 0x00] [9, 9, 9, 9, 9, 9]
      (Message.disconnect
        { properties := none, remLen := 0, mType := PacketType.DISCONNECT,
          version := ProtocolVersion.ProtocolV311, reasonCode := 0 })
      2 rfl rfl
      (by
        intro m h
        cases h)
      (by
        intro m h
        cases h)
      (by decide)⟩

theorem Decode_PUBACK_witness :
    ∃ m : AckMessage Unit,
      Decode sampleCodec ProtocolVersion.ProtocolV311
          [0x40, 0x02, toByte ((7 : PacketID).val / 256), toByte ((7 : PacketID).val % 256)] =
        Outcome.ok (Message.ack m, 4) ∧
      (Message.ack m).TypeOf = PacketType.PUBACK ∧ m.PacketID = some 7 :=
  Decode_PUBACK sampleCodec 7 (by decide)

theorem Encode_PUBACK_witness :
    ∃ m : AckMessage Unit,
      NewMessage Unit ProtocolVersion.ProtocolV311 PacketType.PUBACK =
        Outcome.ok (Message.ack m) ∧
      (m.SetPacketID 7).PacketID = some 7 ∧
      Encode sampleCodec (Message.ack (m.SetPacketID 7)) [9, 9, 9, 9, 9, 9] =
        Outcome.ok
          ([0x40, 0x02, toByte ((7 : PacketID).val / 256), toByte ((7 : PacketID).val % 256)] ++
            ([9, 9, 9, 9, 9, 9] : List Byte).drop 4, 4) :=
  Encode_PUBACK sampleCodec 7 [9, 9, 9, 9, 9, 9] (by decide) (by decide)

theorem Decode_insufficient_data_witness :
    Decode sampleCodec ProtocolVersion.ProtocolV311 [0x40, 0x02, 0x07] =
        Outcome.fail Error.ErrInsufficientDataSize ∧
      Decode sampleCodec ProtocolVersion.ProtocolV311 [0x40, 0x02, 0x07] ≠
        Outcome.fail Error.CodeMalformedPacket :=
  Decode_insufficient_data sampleCodec ProtocolVersion.ProtocolV311 0x40 [0x02, 0x07] 2 1
    (Or.inr (by decide)) rfl (by decide)

theorem DISCONNECT_two_bytes_witness :
    (∀ v : ProtocolVersion, ∃ m : DisconnectMessage Unit,
        Decode sampleCodec v [0xE0, 0x00] = Outcome.ok (Message.disconnect m, 2) ∧
          (Message.disconnect m).TypeOf = PacketType.DISCONNECT) ∧
      ∃ m0 : Message Unit,
        NewMessage Unit ProtocolVersion.ProtocolV311 PacketType.DISCONNECT = Outcome.ok m0 ∧
          Encode sampleCodec m0 [9, 9, 9] =
            Outcome.ok ([0xE0, 0x00] ++ ([9, 9, 9] : List Byte).drop 2, 2) :=
  DISCONNECT_two_bytes sampleCodec [9, 9, 9] (by decide)

theorem Decode_DISCONNECT_V311_nonzero_witness :
    Decode sampleCodec ProtocolVersion.ProtocolV311 [0xE0, 0x01, 0x00] =
      Outcome.fail Error.CodeRefusedServerUnavailable :=
  Decode_DISCONNECT_V311_nonzero sampleCodec [0x01, 0x00] 1 1 rfl (by decide) (by decide)

theorem decodeMessage_success_count_witness :
    decodeMessage sampleCodec (newSubAckMessage Unit ProtocolVersion.ProtocolV50 4)
        [0, 7, 0, 0x80] =
      some ({ newSubAckMessage Unit ProtocolVersion.ProtocolV50 4 with
        packetID := [0, 7], returnCodes := [0x80] }, 4, none) ∧
      (4 : Int) = ((newSubAckMessage Unit ProtocolVersion.ProtocolV50 4).remLen : Int) :=
  ⟨rfl, decodeMessage_success_count sampleCodec
    (newSubAckMessage Unit ProtocolVersion.ProtocolV50 4)
    { newSubAckMessage Unit ProtocolVersion.ProtocolV50 4 with
      packetID := [0, 7], returnCodes := [0x80] }
    [0, 7, 0, 0x80] 4 rfl⟩

theorem AddReturnCodes_not_atomic_witness :
    ∃ pre q post, ([1, 2, 3, 0] : List ReasonCode) = pre ++ q :: post ∧
      (∀ x ∈ pre, codeAccepted sampleCodec ProtocolVersion.ProtocolV311 PacketType.SUBACK x =
        true) ∧
      codeAccepted sampleCodec ProtocolVersion.ProtocolV311 PacketType.SUBACK q = false ∧
      (AddReturnCodes sampleCodec (newSubAckMessage Unit ProtocolVersion.ProtocolV311 0)
        [1, 2, 3, 0]).1 =
        { newSubAckMessage Unit ProtocolVersion.ProtocolV311 0 with
          returnCodes := (newSubAckMessage Unit ProtocolVersion.ProtocolV311 0).returnCodes ++
            pre } :=
  AddReturnCodes_not_atomic sampleCodec (newSubAckMessage Unit ProtocolVersion.ProtocolV311 0)
    [1, 2, 3, 0] (by decide)

end MQTT
